import Mathlib

/-!
Verification of the `const_fmt` fixed-capacity formatting buffer.

The definitions below are a shallow embedding of `src/const_fmt/src/buffer.rs`,
`src/const_fmt/src/byte_buffer.rs` and `src/const_fmt/src/macros.rs`:

* the byte storage of a `Buffer<B>` is modelled as a `List Nat` of bytes
  together with the compile-time storage shape (`ByteShape`, mirroring the
  sealed `ByteBuffer` capability: a fixed-size array or a `Concat` of two
  shapes);
* raw pointer writes become `List.set` at explicit byte offsets;
* `MaybeUninit` storage is created filled with `0` bytes; no theorem below
  depends on bytes at or beyond `len`, matching the fact that the Rust code
  never reads uninitialized bytes;
* machine integers are `Nat` / `Int`; none of the arithmetic performed by the
  code can overflow its Rust types (the `u32` arithmetic of `u8_ilog10` stays
  below `2^32` for inputs `< 256`, and `unsigned_abs` of an `N`-bit signed
  value fits in `N` unsigned bits), so plain `Nat` arithmetic is exact;
* fallible operations return `Buffer × Option BufferWriteFailed`: the first
  component is the buffer state after the call (the Rust methods mutate
  `&mut self`), the second is `some e` exactly when the Rust method returns
  `Err(BufferWriteFailed)`.

The build target is assumed to have `target_pointer_width = "64"`, the default
`cfg` branch, so `write_usize` delegates to `write_u64`.
-/

namespace ConstFmt

/-- Storage shapes of the sealed `ByteBuffer` capability (`byte_buffer.rs`):
a fixed-size byte array `[u8; N]`, or `Concat<A, B>` of two member shapes. -/
inductive ByteShape
  | arr (n : Nat)
  | concat (a b : ByteShape)

/-- Size in bytes of a storage shape: `size_of::<[u8; N]>() = N` and
`size_of::<Concat<A, B>>() = size_of::<A>() + size_of::<B>()` (`repr(C)`,
alignment 1). -/
def ByteShape.size : ByteShape → Nat
  | .arr n => n
  | .concat a b => a.size + b.size

/-- The single error type of the crate (`pub struct BufferWriteFailed`). -/
structure BufferWriteFailed where
deriving DecidableEq

/-- The buffer (`pub struct Buffer<B> { len: usize, buffer: MaybeUninit<B> }`).
`data` is the byte content of the backing storage, always of length
`shape.size`. -/
structure Buffer where
  shape : ByteShape
  len : Nat
  data : List Nat

/-- Model of `Buffer::capacity`: `size_of::<B>()`. -/
def Buffer.capacity (b : Buffer) : Nat := b.shape.size

/-- Model of `Buffer::remaining_capacity`: `capacity() - len` (`unchecked_sub`; the
call is UB unless `len ≤ capacity`, which every theorem assumes via `wf`). -/
def Buffer.remaining_capacity (b : Buffer) : Nat := b.capacity - b.len

/-- Model of `Buffer::as_str`: the written prefix `[0, len)` of the storage. -/
def Buffer.as_str (b : Buffer) : List Nat := b.data.take b.len

/-- Model of `Buffer::is_empty`. -/
def Buffer.is_empty (b : Buffer) : Bool := b.len == 0

/-- Model of `Buffer::create` (also `Buffer::new`): an empty buffer over the given
storage shape. The `MaybeUninit` storage is represented by zero bytes; no
result below depends on bytes at or beyond `len`. -/
def Buffer.create (shape : ByteShape) : Buffer :=
  ⟨shape, 0, List.replicate shape.size 0⟩

/-- Model of `Buffer::clear`: resets `len` to 0, storage untouched. -/
def Buffer.clear (b : Buffer) : Buffer := { b with len := 0 }

/-- Byte-for-byte copy of `s` into `data` starting at offset `off`
(`copy_from_nonoverlapping`). -/
def writeBytes : List Nat → Nat → List Nat → List Nat
  | data, _, [] => data
  | data, off, c :: s => writeBytes (data.set off c) (off + 1) s

/-- Model of `Buffer::push_str_unchecked`: copy the bytes at offset `len` and bump
`len`. -/
def Buffer.push_str_unchecked (b : Buffer) (s : List Nat) : Buffer :=
  { b with data := writeBytes b.data b.len s, len := b.len + s.length }

/-- Model of `Buffer::push_str`: capacity-checked append of the bytes of a `&str`. -/
def Buffer.push_str (b : Buffer) (s : List Nat) : Buffer × Option BufferWriteFailed :=
  if b.remaining_capacity < s.length then (b, some ⟨⟩)
  else (b.push_str_unchecked s, none)

/-- The UTF-8 encoding of a unicode scalar value, exactly as produced by
`char::encode_utf8` (and written byte-by-byte by `Buffer::write_char`). -/
def utf8EncodeChar (c : Nat) : List Nat :=
  if c < 128 then [c]
  else if c < 2048 then [192 ||| (c >>> 6), 128 ||| (c &&& 63)]
  else if c < 65536 then
    [224 ||| (c >>> 12), 128 ||| ((c >>> 6) &&& 63), 128 ||| (c &&& 63)]
  else
    [240 ||| (c >>> 18), 128 ||| ((c >>> 12) &&& 63), 128 ||| ((c >>> 6) &&& 63),
      128 ||| (c &&& 63)]

/-- Model of `Buffer::write_char`: capacity-check `len_utf8`, then write the 1–4
encoded bytes at offset `len` and bump `len`. -/
def Buffer.write_char (b : Buffer) (value : Nat) : Buffer × Option BufferWriteFailed :=
  if b.remaining_capacity < (utf8EncodeChar value).length then (b, some ⟨⟩)
  else
    ({ b with
        data := writeBytes b.data b.len (utf8EncodeChar value),
        len := b.len + (utf8EncodeChar value).length }, none)

/-- Byte `4 * i + 0` of `LOOKUP_10000`: `(i / 1000) as u8 + b'0'`. -/
def chunk0 (i : Nat) : Nat := i / 1000 + 48

/-- Byte `4 * i + 1` of `LOOKUP_10000`: `((i / 100) % 10) as u8 + b'0'`. -/
def chunk1 (i : Nat) : Nat := i / 100 % 10 + 48

/-- Byte `4 * i + 2` of `LOOKUP_10000`: `((i / 10) % 10) as u8 + b'0'`. -/
def chunk2 (i : Nat) : Nat := i / 10 % 10 + 48

/-- Byte `4 * i + 3` of `LOOKUP_10000`: `(i % 10) as u8 + b'0'`. -/
def chunk3 (i : Nat) : Nat := i % 10 + 48

/-- The 4-byte entry of `LOOKUP_10000` at index `i` (as read by the
`[u8; 4]`-typed pointer loads). -/
def chunkAt (i : Nat) : List Nat := [chunk0 i, chunk1 i, chunk2 i, chunk3 i]

/-- Model of `write_lt_10000_unchecked(ptr, value, len)`: fetch the 4-byte table chunk
for `value` and perform the four unconditional byte writes, advancing the
destination by `(len >= k) as usize` between them. `off` is the byte offset of
`ptr` within `data`. -/
def write_lt_10000_unchecked (data : List Nat) (off value len : Nat) : List Nat :=
  let d0 := data.set off (chunk0 value)
  let o1 := off + (if 4 ≤ len then 1 else 0)
  let d1 := d0.set o1 (chunk1 value)
  let o2 := o1 + (if 3 ≤ len then 1 else 0)
  let d2 := d1.set o2 (chunk2 value)
  let o3 := o2 + (if 2 ≤ len then 1 else 0)
  d2.set o3 (chunk3 value)

/-- The branch-free `u8_ilog10` from `Buffer::write_u8` (taken from the Rust
stdlib): `((val + 758) & (val + 412)) >> 8` computed in `u32`. For `val < 256`
every intermediate stays far below `2^32`, so `Nat` arithmetic is exact. -/
def u8_ilog10 (val : Nat) : Nat := ((val + 758) &&& (val + 412)) >>> 8

/-- Model of `Buffer::write_u8`: digit count from `u8_ilog10`, capacity check, then one
`write_lt_10000_unchecked` at offset `len` (a `u8` is always `< 10000`). -/
def Buffer.write_u8 (b : Buffer) (value : Nat) : Buffer × Option BufferWriteFailed :=
  if b.remaining_capacity < u8_ilog10 value + 1 then (b, some ⟨⟩)
  else
    ({ b with
        data := write_lt_10000_unchecked b.data b.len value (u8_ilog10 value + 1),
        len := b.len + (u8_ilog10 value + 1) }, none)

/-- The `while value >= 10000` loop of `imp` followed by the final
`write_lt_10000_unchecked(buffer_ptr, value, len)` call. `base` is the byte
offset of `buffer_ptr` in `data`; `ptrOff` is the byte offset of the chunk
pointer `ptr` relative to `base` (initially `len`; `ptr.sub(1)` on a
`*mut [u8; 4]` subtracts 4 bytes). -/
def impLoop (data : List Nat) (base ptrOff value len : Nat) : List Nat :=
  if 10000 ≤ value then
    impLoop (writeBytes data (base + (ptrOff - 4)) (chunkAt (value % 10000)))
      base (ptrOff - 4) (value / 10000) (len - 4)
  else
    write_lt_10000_unchecked data base value len
termination_by value
decreasing_by exact Nat.div_lt_self (by omega) (by omega)

/-- The shared `imp` helper of the `write_uint!` macro: digit count via
`ilog10`, capacity check before any write, then the chunk loop. Returns the
written storage and the `total_len` that the caller adds to `self.len`.
`value` is the `NonZero` argument (callers only pass nonzero values). -/
def imp (value remaining_capacity : Nat) (data : List Nat) (base : Nat) :
    Except BufferWriteFailed (List Nat × Nat) :=
  if remaining_capacity < Nat.log 10 value + 1 then .error ⟨⟩
  else
    .ok (impLoop data base (Nat.log 10 value + 1) value (Nat.log 10 value + 1),
      Nat.log 10 value + 1)

/-- Body of the writers generated by `write_uint!` (`write_u16` through
`write_u128`, and `write_usize` via `write_u64` on 64-bit targets): `0` takes
the `push_str("0")` path, otherwise `imp` writes at offset `len` and `len`
grows by the returned `total_len`. -/
def Buffer.write_uint (b : Buffer) (value : Nat) : Buffer × Option BufferWriteFailed :=
  if value = 0 then b.push_str [48]
  else
    match imp value b.remaining_capacity b.data b.len with
    | .error e => (b, some e)
    | .ok (data', n) => ({ b with data := data', len := b.len + n }, none)

/-- Model of `Buffer::write_u16` (instantiation of `write_uint!`). -/
def Buffer.write_u16 (b : Buffer) (value : Nat) : Buffer × Option BufferWriteFailed :=
  b.write_uint value

/-- Model of `Buffer::write_u32` (instantiation of `write_uint!`). -/
def Buffer.write_u32 (b : Buffer) (value : Nat) : Buffer × Option BufferWriteFailed :=
  b.write_uint value

/-- Model of `Buffer::write_u64` (instantiation of `write_uint!`). -/
def Buffer.write_u64 (b : Buffer) (value : Nat) : Buffer × Option BufferWriteFailed :=
  b.write_uint value

/-- Model of `Buffer::write_u128` (instantiation of `write_uint!`). -/
def Buffer.write_u128 (b : Buffer) (value : Nat) : Buffer × Option BufferWriteFailed :=
  b.write_uint value

/-- Model of `Buffer::write_usize` on a 64-bit target: `self.write_u64(value as _)`. -/
def Buffer.write_usize (b : Buffer) (value : Nat) : Buffer × Option BufferWriteFailed :=
  b.write_u64 value

/-- Model of `Buffer::push_neg`: `push_str("-")`. -/
def Buffer.push_neg (b : Buffer) : Buffer × Option BufferWriteFailed :=
  b.push_str [45]

/-- Model of `Buffer::write_i8`: `tri!(push_neg())` for negatives, then
`write_u8(value.unsigned_abs())`. -/
def Buffer.write_i8 (b : Buffer) (value : Int) : Buffer × Option BufferWriteFailed :=
  if value < 0 then
    match b.push_neg with
    | (b', some e) => (b', some e)
    | (b', none) => b'.write_u8 value.natAbs
  else b.write_u8 value.natAbs

/-- Model of `Buffer::write_i16`. -/
def Buffer.write_i16 (b : Buffer) (value : Int) : Buffer × Option BufferWriteFailed :=
  if value < 0 then
    match b.push_neg with
    | (b', some e) => (b', some e)
    | (b', none) => b'.write_u16 value.natAbs
  else b.write_u16 value.natAbs

/-- Model of `Buffer::write_i32`. -/
def Buffer.write_i32 (b : Buffer) (value : Int) : Buffer × Option BufferWriteFailed :=
  if value < 0 then
    match b.push_neg with
    | (b', some e) => (b', some e)
    | (b', none) => b'.write_u32 value.natAbs
  else b.write_u32 value.natAbs

/-- Model of `Buffer::write_i64`. -/
def Buffer.write_i64 (b : Buffer) (value : Int) : Buffer × Option BufferWriteFailed :=
  if value < 0 then
    match b.push_neg with
    | (b', some e) => (b', some e)
    | (b', none) => b'.write_u64 value.natAbs
  else b.write_u64 value.natAbs

/-- Model of `Buffer::write_i128`. -/
def Buffer.write_i128 (b : Buffer) (value : Int) : Buffer × Option BufferWriteFailed :=
  if value < 0 then
    match b.push_neg with
    | (b', some e) => (b', some e)
    | (b', none) => b'.write_u128 value.natAbs
  else b.write_u128 value.natAbs

/-- Model of `Buffer::write_isize` (64-bit target). -/
def Buffer.write_isize (b : Buffer) (value : Int) : Buffer × Option BufferWriteFailed :=
  if value < 0 then
    match b.push_neg with
    | (b', some e) => (b', some e)
    | (b', none) => b'.write_usize value.natAbs
  else b.write_usize value.natAbs

/-- Model of `Buffer::append`: fresh buffer over `Concat<B, A>`, then two unchecked
pushes of the two inputs' written prefixes. Takes both buffers by reference
and is infallible. -/
def Buffer.append (x y : Buffer) : Buffer :=
  ((Buffer.create (.concat x.shape y.shape)).push_str_unchecked x.as_str).push_str_unchecked
    y.as_str

/-- Decimal digit characters of `v`, most significant first; empty for `0`
(the writers special-case `0` to the literal `"0"`). -/
def decChars (v : Nat) : List Nat :=
  if v = 0 then [] else decChars (v / 10) ++ [v % 10 + 48]
decreasing_by exact Nat.div_lt_self (by omega) (by omega)

/-- Conventional decimal digit count (`1` for `0`). -/
def decDigits (v : Nat) : Nat := if v = 0 then 1 else Nat.log 10 v + 1

/-- The canonical decimal ASCII representation: `"0"` for zero, no leading
zeros otherwise. -/
def decRep (v : Nat) : List Nat := if v = 0 then [48] else decChars v

/-- A standard decimal parser over ASCII digit bytes. -/
def parseDec (s : List Nat) : Nat := s.foldl (fun acc c => acc * 10 + (c - 48)) 0

/-- Left-pads `decChars v` with `'0'` bytes to `len` characters. -/
def padTo (len v : Nat) : List Nat :=
  List.replicate (len - (decChars v).length) 48 ++ decChars v

/-- The text appended by a signed writer: a `'-'` byte iff `v < 0`, followed
by the canonical decimal representation of `|v|`. -/
def negRep (v : Int) : List Nat := (if v < 0 then [45] else []) ++ decRep v.natAbs

/-- A unicode scalar value (the invariant of Rust `char`). -/
def IsScalar (c : Nat) : Prop := c < 55296 ∨ (57344 ≤ c ∧ c < 1114112)

/-- A byte list is valid UTF-8: it is the concatenated encoding of some
sequence of unicode scalar values. -/
def IsUtf8 (s : List Nat) : Prop :=
  ∃ cs : List Nat, (∀ c ∈ cs, IsScalar c) ∧ s = (cs.map utf8EncodeChar).flatten

/-- Structural well-formedness of the model: the storage has exactly
`capacity` bytes and `len` never exceeds it. -/
def Buffer.wf (b : Buffer) : Prop :=
  b.data.length = b.capacity ∧ b.len ≤ b.capacity

/-- The full state invariant of the spec: well-formed, and the written prefix
is valid UTF-8. -/
def Buffer.Inv (b : Buffer) : Prop := b.wf ∧ IsUtf8 b.as_str

/-- A standard signed decimal parser: a leading `'-'` negates the decimal
value of the remaining digits. -/
def parseSignedDec (s : List Nat) : Int :=
  match s with
  | 45 :: t => -(parseDec t : Int)
  | _ => (parseDec s : Int)

/-- The built-in formattable types for which `macros.rs` registers a
`ConstFormat` impl with `Writer = StdWriter<Self>`. -/
inductive BuiltinTy
  | u8 | u16 | u32 | u64 | u128 | usize
  | i8 | i16 | i32 | i64 | i128 | isize
  | ch | str

/-- The model-level value type of each built-in Rust type. -/
def BuiltinTy.Val : BuiltinTy → Type
  | .u8 | .u16 | .u32 | .u64 | .u128 | .usize => Nat
  | .i8 | .i16 | .i32 | .i64 | .i128 | .isize => Int
  | .ch => Nat
  | .str => List Nat

/-- Model of `StdWriter<T>`: the strategy value resolved for each built-in type; it is
stateless (`PhantomData` only, no runtime fields). -/
structure StdWriter (t : BuiltinTy) where

/-- Model of `Writer::INIT` for `StdWriter<T>`. -/
def StdWriter.init (t : BuiltinTy) : StdWriter t := ⟨⟩

/-- Model of `StdWriter::<T>::display(self, value, buffer)`: delegates directly to the
matching `Buffer` write method, exactly as each `int!`-generated impl (and the
`&str` impl) does. -/
def StdWriter.display : {t : BuiltinTy} → StdWriter t → t.Val → Buffer →
    Buffer × Option BufferWriteFailed
  | .u8, _, v, b => b.write_u8 v
  | .u16, _, v, b => b.write_u16 v
  | .u32, _, v, b => b.write_u32 v
  | .u64, _, v, b => b.write_u64 v
  | .u128, _, v, b => b.write_u128 v
  | .usize, _, v, b => b.write_usize v
  | .i8, _, v, b => b.write_i8 v
  | .i16, _, v, b => b.write_i16 v
  | .i32, _, v, b => b.write_i32 v
  | .i64, _, v, b => b.write_i64 v
  | .i128, _, v, b => b.write_i128 v
  | .isize, _, v, b => b.write_isize v
  | .ch, _, v, b => b.write_char v
  | .str, _, v, b => b.push_str v

/-! ### Lemmas about `writeBytes` and `List.set` -/

theorem length_writeBytes (s : List Nat) : ∀ (data : List Nat) (off : Nat),
    (writeBytes data off s).length = data.length := by
  induction s with
  | nil => intro data off; rfl
  | cons c s ih => intro data off; rw [writeBytes, ih, List.length_set]

theorem take_set_of_le (l : List Nat) (i a k : Nat) (h : k ≤ i) :
    (l.set i a).take k = l.take k := by
  rw [List.set_take]
  exact List.set_eq_of_length_le (by simp; omega)

theorem take_writeBytes_of_le (s : List Nat) : ∀ (data : List Nat) (off k : Nat), k ≤ off →
    (writeBytes data off s).take k = data.take k := by
  induction s with
  | nil => intros; rfl
  | cons c s ih =>
    intro data off k h
    rw [writeBytes, ih _ _ _ (by omega), take_set_of_le _ _ _ _ h]

theorem take_succ_set (a : Nat) : ∀ (l : List Nat) (i : Nat), i < l.length →
    (l.set i a).take (i + 1) = l.take i ++ [a]
  | x :: xs, 0, _ => by simp
  | x :: xs, i + 1, h => by
    have ih := take_succ_set a xs i (by simpa using h)
    simp only [List.set_cons_succ, List.take_succ_cons, ih, List.cons_append]

theorem take_writeBytes (s : List Nat) : ∀ (data : List Nat) (off : Nat),
    off + s.length ≤ data.length →
    (writeBytes data off s).take (off + s.length) = data.take off ++ s := by
  induction s with
  | nil => intro data off h; simp [writeBytes]
  | cons c s ih =>
    intro data off h
    simp only [List.length_cons] at h
    rw [writeBytes]
    have h1 : (off + 1) + s.length ≤ (data.set off c).length := by
      rw [List.length_set]; omega
    have heq : off + (c :: s).length = (off + 1) + s.length := by simp; omega
    rw [heq, ih (data.set off c) (off + 1) h1,
      take_succ_set c data off (by omega), List.append_assoc, List.singleton_append]

theorem drop_set_of_lt (l : List Nat) (i a k : Nat) (h : i < k) :
    (l.set i a).drop k = l.drop k := by
  rw [List.drop_set, if_pos h]

theorem drop_writeBytes (s : List Nat) : ∀ (data : List Nat) (off k : Nat),
    off + s.length ≤ k → (writeBytes data off s).drop k = data.drop k := by
  induction s with
  | nil => intros; rfl
  | cons c s ih =>
    intro data off k h
    simp only [List.length_cons] at h
    rw [writeBytes, ih _ _ _ (by omega), drop_set_of_lt _ _ _ _ (by omega)]

theorem set_writeBytes_of_lt (s : List Nat) : ∀ (data : List Nat) (off i x : Nat), i < off →
    (writeBytes data off s).set i x = writeBytes (data.set i x) off s := by
  induction s with
  | nil => intros; rfl
  | cons c s ih =>
    intro data off i x h
    rw [writeBytes, ih _ _ _ _ (by omega),
      List.set_comm c x data (by omega : off ≠ i), writeBytes]

theorem writeBytes_comm (xs : List Nat) : ∀ (ys data : List Nat) (off1 off2 : Nat),
    off1 + xs.length ≤ off2 →
    writeBytes (writeBytes data off2 ys) off1 xs
      = writeBytes (writeBytes data off1 xs) off2 ys := by
  induction xs with
  | nil => intros; rfl
  | cons x xs ih =>
    intro ys data off1 off2 h
    simp only [List.length_cons] at h
    rw [writeBytes, set_writeBytes_of_lt _ _ _ _ _ (by omega), ih _ _ _ _ (by omega),
      writeBytes]

theorem writeBytes_append (xs ys : List Nat) : ∀ (data : List Nat) (off : Nat),
    writeBytes data off (xs ++ ys) = writeBytes (writeBytes data off xs) (off + xs.length) ys := by
  induction xs with
  | nil => intro data off; simp [writeBytes]
  | cons x xs ih =>
    intro data off
    have heq : off + (x :: xs).length = (off + 1) + xs.length := by simp; omega
    rw [List.cons_append, writeBytes, writeBytes, ih, heq]

/-! ### Lemmas about decimal digit characters -/

theorem decChars_zero : decChars 0 = [] := by rw [decChars]; rfl

theorem decChars_succ (v : Nat) (hv : v ≠ 0) :
    decChars v = decChars (v / 10) ++ [v % 10 + 48] := by
  rw [decChars, if_neg hv]

theorem decChars_length (v : Nat) (hv : 1 ≤ v) :
    (decChars v).length = Nat.log 10 v + 1 := by
  induction v using Nat.strong_induction_on with
  | _ v ih =>
    rw [decChars_succ v (by omega)]
    by_cases h10 : v < 10
    · have hq : v / 10 = 0 := by omega
      rw [hq, decChars_zero]
      simp [Nat.log_of_lt h10]
    · have h1 : 1 ≤ v / 10 := by omega
      have hlt : v / 10 < v := Nat.div_lt_self (by omega) (by omega)
      have hrec := ih (v / 10) hlt h1
      have hlog : 0 < Nat.log 10 v := Nat.log_pos (by omega) (by omega)
      simp only [List.length_append, List.length_singleton, hrec, Nat.log_div_base]
      omega

theorem decChars_length_le (k : Nat) : ∀ (v : Nat), v < 10 ^ k → (decChars v).length ≤ k := by
  induction k with
  | zero =>
    intro v hv
    have : v = 0 := by simpa using hv
    simp [this, decChars_zero]
  | succ k ih =>
    intro v hv
    by_cases hz : v = 0
    · simp [hz, decChars_zero]
    · rw [decChars_succ v hz]
      have : v / 10 < 10 ^ k := by
        rw [Nat.div_lt_iff_lt_mul (by omega)]
        calc v < 10 ^ (k + 1) := hv
        _ = 10 ^ k * 10 := by ring
      have := ih (v / 10) this
      simp only [List.length_append, List.length_singleton]
      omega

theorem decChars_digits (v : Nat) : ∀ c ∈ decChars v, 48 ≤ c ∧ c ≤ 57 := by
  induction v using Nat.strong_induction_on with
  | _ v ih =>
    intro c hc
    by_cases hz : v = 0
    · rw [hz, decChars_zero] at hc; cases hc
    · rw [decChars_succ v hz] at hc
      rcases List.mem_append.1 hc with h | h
      · exact ih (v / 10) (Nat.div_lt_self (by omega) (by omega)) c h
      · have : c = v % 10 + 48 := by simpa using h
        have := Nat.mod_lt v (show 0 < 10 by omega)
        omega

theorem decChars_head_ne_zero (v : Nat) (hv : 1 ≤ v) :
    (decChars v).head? ≠ some 48 := by
  induction v using Nat.strong_induction_on with
  | _ v ih =>
    rw [decChars_succ v (by omega)]
    by_cases h10 : v < 10
    · have hq : v / 10 = 0 := by omega
      rw [hq, decChars_zero, List.nil_append, List.head?_cons]
      intro h
      have h' : v % 10 + 48 = 48 := Option.some.inj h
      have : v % 10 = v := Nat.mod_eq_of_lt h10
      omega
    · have h1 : 1 ≤ v / 10 := by omega
      have hlt : v / 10 < v := Nat.div_lt_self (by omega) (by omega)
      have hne : decChars (v / 10) ≠ [] := by
        intro h
        have := decChars_length (v / 10) h1
        rw [h] at this
        simp at this
      rw [List.head?_append_of_ne_nil _ hne]
      exact ih (v / 10) hlt h1

theorem parseDec_foldl (v : Nat) : ∀ acc : Nat,
    (decChars v).foldl (fun acc c => acc * 10 + (c - 48)) acc
      = acc * 10 ^ (decChars v).length + v := by
  induction v using Nat.strong_induction_on with
  | _ v ih =>
    intro acc
    by_cases hz : v = 0
    · simp [hz, decChars_zero]
    · rw [decChars_succ v hz, List.foldl_append,
        ih (v / 10) (Nat.div_lt_self (by omega) (by omega)) acc]
      simp only [List.foldl_cons, List.foldl_nil, List.length_append,
        List.length_singleton]
      have h1 : v % 10 + 48 - 48 = v % 10 := by omega
      have h2 : 10 ^ ((decChars (v / 10)).length + 1)
          = 10 ^ (decChars (v / 10)).length * 10 := by ring
      rw [h1, h2]
      have := Nat.div_add_mod v 10
      ring_nf
      omega

theorem parseDec_decChars (v : Nat) : parseDec (decChars v) = v := by
  have := parseDec_foldl v 0
  simpa [parseDec] using this

theorem parseDec_decRep (v : Nat) : parseDec (decRep v) = v := by
  by_cases hz : v = 0
  · simp [hz, decRep, parseDec]
  · rw [decRep, if_neg hz]; exact parseDec_decChars v

theorem decRep_length (v : Nat) : (decRep v).length = decDigits v := by
  by_cases hz : v = 0
  · simp [hz, decRep, decDigits]
  · rw [decRep, if_neg hz, decDigits, if_neg hz, decChars_length v (by omega)]

theorem decRep_digits (v : Nat) : ∀ c ∈ decRep v, 48 ≤ c ∧ c ≤ 57 := by
  by_cases hz : v = 0
  · simp [hz, decRep]
  · rw [decRep, if_neg hz]; exact decChars_digits v

/-! ### `write_lt_10000_unchecked` as a plain byte copy -/

theorem wlt_one (data : List Nat) (off v : Nat) :
    write_lt_10000_unchecked data off v 1 = writeBytes data off [chunk3 v] := by
  simp [write_lt_10000_unchecked, writeBytes, List.set_set]

theorem wlt_two (data : List Nat) (off v : Nat) :
    write_lt_10000_unchecked data off v 2 = writeBytes data off [chunk2 v, chunk3 v] := by
  simp [write_lt_10000_unchecked, writeBytes, List.set_set]

theorem wlt_three (data : List Nat) (off v : Nat) :
    write_lt_10000_unchecked data off v 3
      = writeBytes data off [chunk1 v, chunk2 v, chunk3 v] := by
  simp [write_lt_10000_unchecked, writeBytes, List.set_set]

theorem wlt_four (data : List Nat) (off v len : Nat) (h : 4 ≤ len) :
    write_lt_10000_unchecked data off v len = writeBytes data off (chunkAt v) := by
  simp [write_lt_10000_unchecked, writeBytes, chunkAt, if_pos h,
    if_pos (by omega : 3 ≤ len), if_pos (by omega : 2 ≤ len)]

/-! ### `decChars` in terms of the lookup-table chunk bytes -/

theorem decChars_one (v : Nat) (h1 : 1 ≤ v) (h2 : v < 10) : decChars v = [chunk3 v] := by
  rw [decChars_succ v (by omega), (by omega : v / 10 = 0), decChars_zero, chunk3]
  rfl

theorem decChars_two (v : Nat) (h1 : 10 ≤ v) (h2 : v < 100) :
    decChars v = [chunk2 v, chunk3 v] := by
  rw [decChars_succ v (by omega), decChars_one (v / 10) (by omega) (by omega), chunk2, chunk3]
  have : v / 10 % 10 = v / 10 := Nat.mod_eq_of_lt (by omega)
  rw [chunk3, this]
  rfl

theorem decChars_three (v : Nat) (h1 : 100 ≤ v) (h2 : v < 1000) :
    decChars v = [chunk1 v, chunk2 v, chunk3 v] := by
  rw [decChars_succ v (by omega), decChars_two (v / 10) (by omega) (by omega)]
  have e1 : v / 10 / 10 = v / 100 := by rw [Nat.div_div_eq_div_mul]
  have e2 : v / 100 % 10 = v / 100 := Nat.mod_eq_of_lt (by omega)
  simp only [chunk1, chunk2, chunk3, e1, e2, List.cons_append, List.nil_append]

theorem decChars_split (v : Nat) (h1 : 1000 ≤ v) :
    decChars v = decChars (v / 10000) ++ chunkAt (v % 10000) := by
  have e1 : v / 10 / 10 = v / 100 := by rw [Nat.div_div_eq_div_mul]
  have e2 : v / 100 / 10 = v / 1000 := by rw [Nat.div_div_eq_div_mul]
  have e3 : v / 1000 / 10 = v / 10000 := by rw [Nat.div_div_eq_div_mul]
  rw [decChars_succ v (by omega), decChars_succ (v / 10) (by omega),
    decChars_succ (v / 10 / 10) (by rw [e1]; omega),
    decChars_succ (v / 10 / 10 / 10) (by rw [e1, e2]; omega), e1, e2, e3]
  have c0 : chunk0 (v % 10000) = v / 1000 % 10 + 48 := by
    rw [chunk0, (by norm_num : (10000 : Nat) = 1000 * 10),
      Nat.mod_mul_right_div_self]
  have c1 : chunk1 (v % 10000) = v / 100 % 10 + 48 := by
    rw [chunk1, (by norm_num : (10000 : Nat) = 100 * 100),
      Nat.mod_mul_right_div_self, Nat.mod_mod_of_dvd _ (by norm_num : (10 : Nat) ∣ 100)]
  have c2 : chunk2 (v % 10000) = v / 10 % 10 + 48 := by
    rw [chunk2, (by norm_num : (10000 : Nat) = 10 * 1000),
      Nat.mod_mul_right_div_self, Nat.mod_mod_of_dvd _ (by norm_num : (10 : Nat) ∣ 1000)]
  have c3 : chunk3 (v % 10000) = v % 10 + 48 := by
    rw [chunk3, Nat.mod_mod_of_dvd _ (by norm_num : (10 : Nat) ∣ 10000)]
  simp only [chunkAt, c0, c1, c2, c3, List.append_assoc, List.cons_append, List.nil_append]

theorem decChars_four (v : Nat) (h1 : 1000 ≤ v) (h2 : v < 10000) : decChars v = chunkAt v := by
  rw [decChars_split v h1, (by omega : v / 10000 = 0), decChars_zero,
    Nat.mod_eq_of_lt h2, List.nil_append]

/-! ### Zero padding -/

theorem padTo_exact (len v : Nat) (h : (decChars v).length = len) : padTo len v = decChars v := by
  rw [padTo, h]
  simp

theorem padTo_succ (len v : Nat) (h : (decChars v).length ≤ len) :
    padTo (len + 1) v = 48 :: padTo len v := by
  rw [padTo, padTo, (by omega : len + 1 - (decChars v).length = (len - (decChars v).length) + 1),
    List.replicate_succ, List.cons_append]

theorem chunk_zero_of_lt_10 (v : Nat) (h : v < 10) : chunk2 v = 48 := by
  rw [chunk2, (by omega : v / 10 = 0)]

theorem chunk1_zero_of_lt_100 (v : Nat) (h : v < 100) : chunk1 v = 48 := by
  rw [chunk1, (by omega : v / 100 = 0)]

theorem chunk0_zero_of_lt_1000 (v : Nat) (h : v < 1000) : chunk0 v = 48 := by
  rw [chunk0, (by omega : v / 1000 = 0)]

theorem pad_one (v : Nat) (h : v < 10) : [chunk3 v] = padTo 1 v := by
  by_cases hz : v = 0
  · subst hz; rw [padTo, decChars_zero]; rfl
  · rw [padTo_exact 1 v (by rw [decChars_one v (by omega) h]; rfl), decChars_one v (by omega) h]

theorem pad_two (v : Nat) (h : v < 100) : [chunk2 v, chunk3 v] = padTo 2 v := by
  by_cases h10 : v < 10
  · rw [padTo_succ 1 v (decChars_length_le 1 v (by simpa using h10)),
      chunk_zero_of_lt_10 v h10, ← pad_one v h10]
  · rw [padTo_exact 2 v (by rw [decChars_two v (by omega) h]; rfl), decChars_two v (by omega) h]

theorem pad_three (v : Nat) (h : v < 1000) :
    [chunk1 v, chunk2 v, chunk3 v] = padTo 3 v := by
  by_cases h100 : v < 100
  · rw [padTo_succ 2 v (decChars_length_le 2 v (by simpa using h100)),
      chunk1_zero_of_lt_100 v h100, ← pad_two v h100]
  · rw [padTo_exact 3 v (by rw [decChars_three v (by omega) h]; rfl),
      decChars_three v (by omega) h]

theorem pad_four (v : Nat) (h : v < 10000) : chunkAt v = padTo 4 v := by
  by_cases h1000 : v < 1000
  · rw [chunkAt, padTo_succ 3 v (decChars_length_le 3 v (by simpa using h1000)),
      chunk0_zero_of_lt_1000 v h1000, ← pad_three v h1000]
  · rw [padTo_exact 4 v (by rw [decChars_four v (by omega) h, chunkAt]; rfl),
      decChars_four v (by omega) h]

/-! ### Correctness of the digit-writing core -/

theorem lt_pow_of_decChars_length_le (v k : Nat) (h : (decChars v).length ≤ k) :
    v < 10 ^ k := by
  by_contra hc
  push_neg at hc
  have hv1 : 1 ≤ v := le_trans (Nat.one_le_pow k 10 (by omega)) hc
  rw [decChars_length v hv1] at h
  have : k ≤ Nat.log 10 v := (Nat.pow_le_iff_le_log (by omega) (by omega)).1 hc
  omega

theorem wlt_eq_writeBytes (data : List Nat) (off v len : Nat)
    (h1 : 1 ≤ len) (h4 : len ≤ 4) (hd : (decChars v).length ≤ len) :
    write_lt_10000_unchecked data off v len = writeBytes data off (padTo len v) := by
  have hv := lt_pow_of_decChars_length_le v len hd
  interval_cases len
  · rw [wlt_one, pad_one v (by simpa using hv)]
  · rw [wlt_two, pad_two v (by simpa using hv)]
  · rw [wlt_three, pad_three v (by simpa using hv)]
  · rw [wlt_four data off v 4 (by omega), pad_four v (by simpa using hv)]

theorem impLoop_eq (v : Nat) : ∀ (data : List Nat) (base len : Nat), 1 ≤ v →
    len = Nat.log 10 v + 1 → base + len ≤ data.length →
    impLoop data base len v len = writeBytes data base (decChars v) := by
  induction v using Nat.strong_induction_on with
  | _ v ih =>
    intro data base len hv hlen hcap
    by_cases hbig : 10000 ≤ v
    · rw [impLoop, if_pos hbig]
      have hlog4 : 4 ≤ Nat.log 10 v :=
        (Nat.pow_le_iff_le_log (by omega) (by omega)).1 (by simpa using hbig)
      have hq1 : 1 ≤ v / 10000 := (Nat.one_le_div_iff (by omega)).2 hbig
      have hqlt : v / 10000 < v := Nat.div_lt_self (by omega) (by omega)
      have hlogq : Nat.log 10 (v / 10000) = Nat.log 10 v - 4 := by
        have e1 : v / 10000 = v / 10 / 10 / 10 / 10 := by
          rw [Nat.div_div_eq_div_mul, Nat.div_div_eq_div_mul, Nat.div_div_eq_div_mul]
        rw [e1, Nat.log_div_base, Nat.log_div_base, Nat.log_div_base, Nat.log_div_base]
        omega
      have hlen4 : len - 4 = Nat.log 10 (v / 10000) + 1 := by rw [hlogq]; omega
      have hdlen : (decChars (v / 10000)).length = len - 4 := by
        rw [decChars_length _ hq1, hlen4]
      have hcap' : base + (len - 4)
          ≤ (writeBytes data (base + (len - 4)) (chunkAt (v % 10000))).length := by
        rw [length_writeBytes]; omega
      rw [ih (v / 10000) hqlt _ _ _ hq1 hlen4 hcap',
        writeBytes_comm _ _ _ _ _ (by rw [hdlen]),
        ← hdlen, ← writeBytes_append, ← decChars_split v (by omega)]
    · rw [impLoop, if_neg hbig]
      have hlog3 : Nat.log 10 v < 4 := Nat.log_lt_of_lt_pow (by omega) (by simpa using hbig)
      have hdig : (decChars v).length = len := by rw [decChars_length v hv, hlen]
      rw [wlt_eq_writeBytes data base v len (by omega) (by omega) (le_of_eq hdig),
        padTo_exact len v hdig]

/-! ### Operation-level specifications -/

theorem push_str_unchecked_fields (b : Buffer) (s : List Nat) :
    (b.push_str_unchecked s).shape = b.shape ∧
    (b.push_str_unchecked s).len = b.len + s.length ∧
    (b.push_str_unchecked s).data = writeBytes b.data b.len s := ⟨rfl, rfl, rfl⟩

theorem push_str_unchecked_append (b : Buffer) (s t : List Nat) :
    (b.push_str_unchecked s).push_str_unchecked t = b.push_str_unchecked (s ++ t) := by
  simp only [Buffer.push_str_unchecked, writeBytes_append, List.length_append]
  congr 1
  omega

theorem push_str_unchecked_wf (b : Buffer) (s : List Nat) (hwf : b.wf)
    (hcap : b.len + s.length ≤ b.capacity) : (b.push_str_unchecked s).wf := by
  obtain ⟨hdl, _⟩ := hwf
  exact ⟨by simpa [Buffer.push_str_unchecked, Buffer.capacity, length_writeBytes] using hdl,
    hcap⟩

theorem push_str_unchecked_as_str (b : Buffer) (s : List Nat) (hwf : b.wf)
    (hcap : b.len + s.length ≤ b.capacity) :
    (b.push_str_unchecked s).as_str = b.as_str ++ s := by
  obtain ⟨hdl, _⟩ := hwf
  simp only [Buffer.as_str, Buffer.push_str_unchecked]
  exact take_writeBytes s b.data b.len (by omega)

theorem push_str_ok (b : Buffer) (s : List Nat) (hcap : s.length ≤ b.remaining_capacity) :
    b.push_str s = (b.push_str_unchecked s, none) := by
  rw [Buffer.push_str, if_neg (by omega)]

theorem push_str_fail (b : Buffer) (s : List Nat) (hcap : b.remaining_capacity < s.length) :
    b.push_str s = (b, some ⟨⟩) := by
  rw [Buffer.push_str, if_pos hcap]

theorem write_char_ok (b : Buffer) (c : Nat)
    (hcap : (utf8EncodeChar c).length ≤ b.remaining_capacity) :
    b.write_char c = (b.push_str_unchecked (utf8EncodeChar c), none) := by
  rw [Buffer.write_char, if_neg (by omega)]
  rfl

theorem write_char_fail (b : Buffer) (c : Nat)
    (hcap : b.remaining_capacity < (utf8EncodeChar c).length) :
    b.write_char c = (b, some ⟨⟩) := by
  rw [Buffer.write_char, if_pos hcap]

set_option maxRecDepth 4000 in
theorem u8_ilog10_buckets : ∀ val, val < 256 →
    u8_ilog10 val = if val < 10 then 0 else if val < 100 then 1 else 2 := by decide

theorem u8_len_eq (val : Nat) (h : val < 256) : u8_ilog10 val + 1 = decDigits val := by
  rw [u8_ilog10_buckets val h, decDigits]
  by_cases h0 : val = 0
  · simp [h0]
  · by_cases h10 : val < 10
    · rw [if_pos h10, if_neg h0, Nat.log_of_lt h10]
    · by_cases h100 : val < 100
      · have hl : Nat.log 10 val = 1 :=
          Nat.log_eq_of_pow_le_of_lt_pow (by norm_num; omega) (by norm_num; omega)
        rw [if_neg h10, if_pos h100, if_neg h0, hl]
      · have hl : Nat.log 10 val = 2 :=
          Nat.log_eq_of_pow_le_of_lt_pow (by norm_num; omega) (by norm_num; omega)
        rw [if_neg h10, if_neg h100, if_neg h0, hl]

theorem decDigits_pos (v : Nat) : 1 ≤ decDigits v := by
  rw [decDigits]; split <;> omega

theorem decDigits_eq_decChars_length (v : Nat) (h0 : v ≠ 0) :
    (decChars v).length = decDigits v := by
  rw [decDigits, if_neg h0, decChars_length v (by omega)]

theorem wlt_u8_content (data : List Nat) (off v : Nat) (h : v < 256) :
    write_lt_10000_unchecked data off v (decDigits v) = writeBytes data off (decRep v) := by
  by_cases h0 : v = 0
  · subst h0
    simp [decDigits, decRep, wlt_one, chunk3]
  · have hd := decDigits_eq_decChars_length v h0
    have hlog : Nat.log 10 v < 3 := Nat.log_lt_of_lt_pow h0 (by norm_num; omega)
    have hle : decDigits v ≤ 4 := by rw [decDigits, if_neg h0]; omega
    rw [wlt_eq_writeBytes data off v (decDigits v) (decDigits_pos v) hle (le_of_eq hd),
      padTo_exact _ _ hd, decRep, if_neg h0]

theorem write_u8_ok (b : Buffer) (v : Nat) (hv : v < 256)
    (hcap : decDigits v ≤ b.remaining_capacity) :
    b.write_u8 v = (b.push_str_unchecked (decRep v), none) := by
  rw [Buffer.write_u8]
  simp only [u8_len_eq v hv]
  rw [if_neg (by omega), wlt_u8_content b.data b.len v hv, ← decRep_length v]
  rfl

theorem write_u8_fail (b : Buffer) (v : Nat) (hv : v < 256)
    (hcap : b.remaining_capacity < decDigits v) :
    b.write_u8 v = (b, some ⟨⟩) := by
  rw [Buffer.write_u8]
  simp only [u8_len_eq v hv]
  rw [if_pos (by omega)]

theorem imp_ok (v remaining : Nat) (data : List Nat) (base : Nat) (h0 : v ≠ 0)
    (hcap : Nat.log 10 v + 1 ≤ remaining) (hlen : base + (Nat.log 10 v + 1) ≤ data.length) :
    imp v remaining data base = .ok (writeBytes data base (decChars v), Nat.log 10 v + 1) := by
  rw [imp, if_neg (by omega), impLoop_eq v data base (Nat.log 10 v + 1) (by omega) rfl hlen]

theorem imp_fail (v remaining : Nat) (data : List Nat) (base : Nat)
    (hcap : remaining < Nat.log 10 v + 1) :
    imp v remaining data base = .error ⟨⟩ := by
  rw [imp, if_pos hcap]

theorem write_uint_ok (b : Buffer) (v : Nat) (hwf : b.wf)
    (hcap : decDigits v ≤ b.remaining_capacity) :
    b.write_uint v = (b.push_str_unchecked (decRep v), none) := by
  obtain ⟨hdl, hlc⟩ := hwf
  have hrc : b.remaining_capacity = b.capacity - b.len := rfl
  by_cases h0 : v = 0
  · subst h0
    rw [Buffer.write_uint, if_pos rfl, push_str_ok b [48] (by simpa [decDigits] using hcap)]
    rfl
  · have hd : decDigits v = Nat.log 10 v + 1 := by rw [decDigits, if_neg h0]
    have hcap2 : Nat.log 10 v + 1 ≤ b.remaining_capacity := by omega
    have hlen : b.len + (Nat.log 10 v + 1) ≤ b.data.length := by omega
    rw [Buffer.write_uint, if_neg h0, imp_ok v _ _ _ h0 hcap2 hlen]
    have hrep : decRep v = decChars v := by rw [decRep, if_neg h0]
    have hlen2 : (decChars v).length = Nat.log 10 v + 1 := decChars_length v (by omega)
    simp [Buffer.push_str_unchecked, hrep, hlen2]

theorem write_uint_fail (b : Buffer) (v : Nat)
    (hcap : b.remaining_capacity < decDigits v) :
    b.write_uint v = (b, some ⟨⟩) := by
  by_cases h0 : v = 0
  · subst h0
    rw [Buffer.write_uint, if_pos rfl, push_str_fail b [48] (by simpa [decDigits] using hcap)]
  · have hd : decDigits v = Nat.log 10 v + 1 := by rw [decDigits, if_neg h0]
    rw [Buffer.write_uint, if_neg h0, imp_fail v _ _ _ (by omega)]

theorem negRep_length_neg (v : Int) (hneg : v < 0) :
    (negRep v).length = decDigits v.natAbs + 1 := by
  simp [negRep, if_pos hneg, decRep_length]

theorem negRep_length_nonneg (v : Int) (hneg : ¬ v < 0) :
    (negRep v).length = decDigits v.natAbs := by
  simp [negRep, if_neg hneg, decRep_length]

theorem remaining_push_str_unchecked (b : Buffer) (s : List Nat) :
    (b.push_str_unchecked s).remaining_capacity = b.capacity - (b.len + s.length) := rfl

theorem write_i16_ok (b : Buffer) (v : Int) (hwf : b.wf)
    (hcap : (negRep v).length ≤ b.remaining_capacity) :
    b.write_i16 v = (b.push_str_unchecked (negRep v), none) := by
  obtain ⟨hdl, hlc⟩ := hwf
  have hrc : b.remaining_capacity = b.capacity - b.len := rfl
  by_cases hneg : v < 0
  · have hlen := negRep_length_neg v hneg
    rw [Buffer.write_i16, if_pos hneg, Buffer.push_neg, push_str_ok b [45] (by simp; omega)]
    have hwf' : (b.push_str_unchecked [45]).wf :=
      push_str_unchecked_wf b [45] ⟨hdl, hlc⟩ (by simp; omega)
    have hrem : (b.push_str_unchecked [45]).remaining_capacity
        = b.capacity - (b.len + 1) := rfl
    show (b.push_str_unchecked [45]).write_uint v.natAbs = _
    rw [write_uint_ok _ _ hwf' (by rw [hrem]; omega),
      push_str_unchecked_append]
    have : [45] ++ decRep v.natAbs = negRep v := by simp [negRep, if_pos hneg]
    rw [this]
  · have hlen := negRep_length_nonneg v hneg
    rw [Buffer.write_i16, if_neg hneg,
      show b.write_u16 v.natAbs = b.write_uint v.natAbs from rfl,
      write_uint_ok b v.natAbs ⟨hdl, hlc⟩ (by omega)]
    have : decRep v.natAbs = negRep v := by simp [negRep, if_neg hneg]
    rw [this]

theorem write_i8_ok (b : Buffer) (v : Int) (hwf : b.wf) (hv : v.natAbs < 256)
    (hcap : (negRep v).length ≤ b.remaining_capacity) :
    b.write_i8 v = (b.push_str_unchecked (negRep v), none) := by
  obtain ⟨hdl, hlc⟩ := hwf
  have hrc : b.remaining_capacity = b.capacity - b.len := rfl
  by_cases hneg : v < 0
  · have hlen := negRep_length_neg v hneg
    rw [Buffer.write_i8, if_pos hneg, Buffer.push_neg, push_str_ok b [45] (by simp; omega)]
    have hrem : (b.push_str_unchecked [45]).remaining_capacity
        = b.capacity - (b.len + 1) := rfl
    show (b.push_str_unchecked [45]).write_u8 v.natAbs = _
    rw [write_u8_ok _ _ hv (by rw [hrem]; omega), push_str_unchecked_append]
    have hnn : [45] ++ decRep v.natAbs = negRep v := by simp [negRep, if_pos hneg]
    rw [hnn]
  · have hlen := negRep_length_nonneg v hneg
    rw [Buffer.write_i8, if_neg hneg, write_u8_ok b v.natAbs hv (by omega)]
    have hnn : decRep v.natAbs = negRep v := by simp [negRep, if_neg hneg]
    rw [hnn]

theorem write_i16_fail_sign (b : Buffer) (v : Int) (hneg : v < 0)
    (hcap : b.remaining_capacity = 0) : b.write_i16 v = (b, some ⟨⟩) := by
  rw [Buffer.write_i16, if_pos hneg, Buffer.push_neg, push_str_fail b [45] (by simp [hcap])]

theorem write_i16_fail_mag (b : Buffer) (v : Int) (hneg : v < 0)
    (h1 : 1 ≤ b.remaining_capacity) (hcap : b.remaining_capacity < (negRep v).length) :
    b.write_i16 v = (b.push_str_unchecked [45], some ⟨⟩) := by
  have hlen := negRep_length_neg v hneg
  have hrc : b.remaining_capacity = b.capacity - b.len := rfl
  rw [Buffer.write_i16, if_pos hneg, Buffer.push_neg, push_str_ok b [45] (by simp; omega)]
  show (b.push_str_unchecked [45]).write_uint v.natAbs = _
  rw [write_uint_fail _ _
    (by rw [remaining_push_str_unchecked]; simp only [List.length_singleton]; omega)]

theorem write_i16_fail_nonneg (b : Buffer) (v : Int) (hneg : ¬ v < 0)
    (hcap : b.remaining_capacity < (negRep v).length) :
    b.write_i16 v = (b, some ⟨⟩) := by
  have hlen := negRep_length_nonneg v hneg
  rw [Buffer.write_i16, if_neg hneg,
    show b.write_u16 v.natAbs = b.write_uint v.natAbs from rfl,
    write_uint_fail b _ (by omega)]

theorem write_i8_fail_sign (b : Buffer) (v : Int) (hneg : v < 0)
    (hcap : b.remaining_capacity = 0) : b.write_i8 v = (b, some ⟨⟩) := by
  rw [Buffer.write_i8, if_pos hneg, Buffer.push_neg, push_str_fail b [45] (by simp [hcap])]

theorem write_i8_fail_mag (b : Buffer) (v : Int) (hneg : v < 0) (hv : v.natAbs < 256)
    (h1 : 1 ≤ b.remaining_capacity) (hcap : b.remaining_capacity < (negRep v).length) :
    b.write_i8 v = (b.push_str_unchecked [45], some ⟨⟩) := by
  have hlen := negRep_length_neg v hneg
  have hrc : b.remaining_capacity = b.capacity - b.len := rfl
  rw [Buffer.write_i8, if_pos hneg, Buffer.push_neg, push_str_ok b [45] (by simp; omega)]
  show (b.push_str_unchecked [45]).write_u8 v.natAbs = _
  rw [write_u8_fail _ _ hv
    (by rw [remaining_push_str_unchecked]; simp only [List.length_singleton]; omega)]

theorem write_i8_fail_nonneg (b : Buffer) (v : Int) (hneg : ¬ v < 0) (hv : v.natAbs < 256)
    (hcap : b.remaining_capacity < (negRep v).length) :
    b.write_i8 v = (b, some ⟨⟩) := by
  have hlen := negRep_length_nonneg v hneg
  rw [Buffer.write_i8, if_neg hneg, write_u8_fail b _ hv (by omega)]

theorem write_u16_eq_uint : Buffer.write_u16 = Buffer.write_uint := rfl

theorem write_u32_eq_uint : Buffer.write_u32 = Buffer.write_uint := rfl

theorem write_u64_eq_uint : Buffer.write_u64 = Buffer.write_uint := rfl

theorem write_u128_eq_uint : Buffer.write_u128 = Buffer.write_uint := rfl

theorem write_usize_eq_uint : Buffer.write_usize = Buffer.write_uint := rfl

theorem write_i32_eq_i16 : Buffer.write_i32 = Buffer.write_i16 := rfl

theorem write_i64_eq_i16 : Buffer.write_i64 = Buffer.write_i16 := rfl

theorem write_i128_eq_i16 : Buffer.write_i128 = Buffer.write_i16 := rfl

theorem write_isize_eq_i16 : Buffer.write_isize = Buffer.write_i16 := rfl

/-! ### UTF-8 validity lemmas -/

theorem isUtf8_nil : IsUtf8 [] := ⟨[], by simp, by simp⟩

theorem flatten_encode_ascii (ys : List Nat) (hy : ∀ b ∈ ys, b < 128) :
    (ys.map utf8EncodeChar).flatten = ys := by
  induction ys with
  | nil => rfl
  | cons y ys ih =>
    rw [List.map_cons, List.flatten_cons, utf8EncodeChar, if_pos (hy y (by simp)),
      ih (fun b hb => hy b (by simp [hb]))]
    rfl

theorem isUtf8_append (xs ys : List Nat) (hx : IsUtf8 xs) (hy : IsUtf8 ys) :
    IsUtf8 (xs ++ ys) := by
  obtain ⟨cs, hcs, rfl⟩ := hx
  obtain ⟨ds, hds, rfl⟩ := hy
  exact ⟨cs ++ ds, fun d hd => (List.mem_append.1 hd).elim (hcs d) (hds d), by
    rw [List.map_append, List.flatten_append]⟩

theorem isUtf8_ascii (ys : List Nat) (hy : ∀ b ∈ ys, b < 128) : IsUtf8 ys := by
  refine ⟨ys, fun d hd => Or.inl (lt_trans (hy d hd) (by norm_num)), ?_⟩
  rw [flatten_encode_ascii ys hy]

theorem isUtf8_append_ascii (xs ys : List Nat) (hx : IsUtf8 xs)
    (hy : ∀ b ∈ ys, b < 128) : IsUtf8 (xs ++ ys) :=
  isUtf8_append xs ys hx (isUtf8_ascii ys hy)

theorem isUtf8_append_encode (xs : List Nat) (c : Nat) (hx : IsUtf8 xs) (hc : IsScalar c) :
    IsUtf8 (xs ++ utf8EncodeChar c) := by
  obtain ⟨cs, hcs, rfl⟩ := hx
  refine ⟨cs ++ [c], ?_, ?_⟩
  · intro d hd
    rcases List.mem_append.1 hd with h | h
    · exact hcs d h
    · rw [List.mem_singleton.1 h]; exact hc
  · rw [List.map_append, List.flatten_append]
    simp

theorem decRep_ascii (v : Nat) : ∀ c ∈ decRep v, c < 128 := by
  intro c hc
  have := decRep_digits v c hc
  omega

theorem negRep_ascii (v : Int) : ∀ c ∈ negRep v, c < 128 := by
  intro c hc
  rcases List.mem_append.1 hc with h | h
  · rcases lt_or_ge v 0 with hv | hv
    · rw [if_pos hv] at h
      rw [List.mem_singleton.1 h]
      omega
    · rw [if_neg (by omega)] at h
      cases h
  · exact decRep_ascii v.natAbs c h

/-! ### Windows into the written region -/

theorem as_str_length (b : Buffer) (hwf : b.wf) : b.as_str.length = b.len := by
  obtain ⟨hdl, hlc⟩ := hwf
  rw [Buffer.as_str, List.length_take]
  omega

theorem writeBytes_window (s : List Nat) (data : List Nat) (off : Nat)
    (h : off + s.length ≤ data.length) :
    ((writeBytes data off s).drop off).take s.length = s := by
  rw [List.take_drop, take_writeBytes s data off h]
  exact List.drop_left' (by rw [List.length_take]; omega)

theorem parseSignedDec_negRep (v : Int) : parseSignedDec (negRep v) = v := by
  rcases lt_or_ge v 0 with hv | hv
  · rw [negRep, if_pos hv, List.singleton_append, parseSignedDec, parseDec_decRep]
    omega
  · rw [negRep, if_neg (by omega), List.nil_append]
    have hlen : (decRep v.natAbs).length = decDigits v.natAbs := decRep_length v.natAbs
    have hpos := decDigits_pos v.natAbs
    rcases hrep : decRep v.natAbs with _ | ⟨c, t⟩
    · rw [hrep] at hlen; simp at hlen; omega
    · have hc : 48 ≤ c ∧ c ≤ 57 := decRep_digits v.natAbs c (by rw [hrep]; simp)
      have h45 : c ≠ 45 := by omega
      unfold parseSignedDec
      split
      · next t' heq =>
        exact absurd (List.head_eq_of_cons_eq heq) h45
      · rw [← hrep, parseDec_decRep]
        exact Int.natAbs_of_nonneg hv

theorem negRep_head_iff (v : Int) : (negRep v).head? = some 45 ↔ v < 0 := by
  constructor
  · intro h
    by_contra hv
    rw [negRep, if_neg hv, List.nil_append] at h
    have hlen : (decRep v.natAbs).length = decDigits v.natAbs := decRep_length v.natAbs
    have hpos := decDigits_pos v.natAbs
    rcases hrep : decRep v.natAbs with _ | ⟨c, t⟩
    · rw [hrep] at hlen; simp at hlen; omega
    · rw [hrep, List.head?_cons] at h
      have hc : 48 ≤ c ∧ c ≤ 57 := decRep_digits v.natAbs c (by rw [hrep]; simp)
      have := Option.some.inj h
      omega
  · intro hv
    rw [negRep, if_pos hv, List.singleton_append, List.head?_cons]

/-! ### Shared helpers for the claim theorems -/

theorem cap_bound (b : Buffer) (n : Nat) (hwf : b.wf) (h : n ≤ b.remaining_capacity) :
    b.len + n ≤ b.capacity := by
  obtain ⟨_, hlc⟩ := hwf
  have hrc : b.remaining_capacity = b.capacity - b.len := rfl
  omega

theorem append_spec (x y : Buffer) (hx : x.wf) (hy : y.wf) :
    (x.append y).as_str = x.as_str ++ y.as_str ∧ (x.append y).wf := by
  have hxs : x.as_str.length = x.len := as_str_length x hx
  have hys : y.as_str.length = y.len := as_str_length y hy
  obtain ⟨hxd, hxl⟩ := hx
  obtain ⟨hyd, hyl⟩ := hy
  have hwf0 : (Buffer.create (ByteShape.concat x.shape y.shape)).wf := by
    refine ⟨?_, ?_⟩
    · simp [Buffer.create, Buffer.capacity]
    · exact Nat.zero_le _
  have hc0 : (Buffer.create (ByteShape.concat x.shape y.shape)).capacity
      = x.capacity + y.capacity := rfl
  have hb1 : (Buffer.create (ByteShape.concat x.shape y.shape)).len + x.as_str.length
      ≤ (Buffer.create (ByteShape.concat x.shape y.shape)).capacity := by
    rw [hc0, hxs]
    show 0 + x.len ≤ x.capacity + y.capacity
    simp [Buffer.capacity] at hxl ⊢
    omega
  have hwf1 := push_str_unchecked_wf _ x.as_str hwf0 hb1
  have has1 := push_str_unchecked_as_str _ x.as_str hwf0 hb1
  have hb2 : ((Buffer.create (ByteShape.concat x.shape y.shape)).push_str_unchecked
        x.as_str).len + y.as_str.length
      ≤ ((Buffer.create (ByteShape.concat x.shape y.shape)).push_str_unchecked
        x.as_str).capacity := by
    show 0 + x.as_str.length + y.as_str.length ≤ x.capacity + y.capacity
    rw [hxs, hys]
    simp [Buffer.capacity] at hxl hyl ⊢
    omega
  have hwf2 := push_str_unchecked_wf _ y.as_str hwf1 hb2
  have has2 := push_str_unchecked_as_str _ y.as_str hwf1 hb2
  refine ⟨?_, hwf2⟩
  rw [Buffer.append, has2, has1]
  have h0 : (Buffer.create (ByteShape.concat x.shape y.shape)).as_str = [] := rfl
  rw [h0, List.nil_append]

theorem inv_push_str_unchecked_utf8 (b : Buffer) (s : List Nat) (hinv : b.Inv)
    (hcap : b.len + s.length ≤ b.capacity) (hs : IsUtf8 s) :
    (b.push_str_unchecked s).Inv :=
  ⟨push_str_unchecked_wf b s hinv.1 hcap,
   by rw [push_str_unchecked_as_str b s hinv.1 hcap]; exact isUtf8_append _ _ hinv.2 hs⟩

theorem inv_push_str_unchecked_ascii (b : Buffer) (s : List Nat) (hinv : b.Inv)
    (hcap : b.len + s.length ≤ b.capacity) (hs : ∀ c ∈ s, c < 128) :
    (b.push_str_unchecked s).Inv :=
  inv_push_str_unchecked_utf8 b s hinv hcap (isUtf8_ascii s hs)

theorem write_u8_err_unchanged (b : Buffer) (v : Nat) (h : (b.write_u8 v).2.isSome) :
    (b.write_u8 v).1 = b := by
  by_cases hc : b.remaining_capacity < u8_ilog10 v + 1
  · rw [Buffer.write_u8, if_pos hc]
  · rw [Buffer.write_u8, if_neg hc] at h
    simp at h

theorem push_str_err_unchanged (b : Buffer) (s : List Nat) (h : (b.push_str s).2.isSome) :
    (b.push_str s).1 = b := by
  by_cases hc : b.remaining_capacity < s.length
  · rw [Buffer.push_str, if_pos hc]
  · rw [push_str_ok b s (by omega)] at h
    simp at h

theorem write_char_err_unchanged (b : Buffer) (c : Nat) (h : (b.write_char c).2.isSome) :
    (b.write_char c).1 = b := by
  by_cases hc : b.remaining_capacity < (utf8EncodeChar c).length
  · rw [Buffer.write_char, if_pos hc]
  · rw [write_char_ok b c (by omega)] at h
    simp at h

theorem write_uint_err_unchanged (b : Buffer) (v : Nat) (h : (b.write_uint v).2.isSome) :
    (b.write_uint v).1 = b := by
  by_cases h0 : v = 0
  · subst h0
    rw [Buffer.write_uint, if_pos rfl] at h ⊢
    exact push_str_err_unchanged b [48] h
  · rcases himp : imp v b.remaining_capacity b.data b.len with e | p
    · rw [Buffer.write_uint, if_neg h0, himp]
    · rw [Buffer.write_uint, if_neg h0, himp] at h
      rcases p with ⟨d, n⟩
      simp at h

theorem write_i16_err_cases (b : Buffer) (v : Int) (h : (b.write_i16 v).2.isSome) :
    (b.write_i16 v).1 = b ∨ (v < 0 ∧ (b.write_i16 v).1 = b.push_str_unchecked [45]) := by
  by_cases hneg : v < 0
  · by_cases h0 : b.remaining_capacity = 0
    · left
      rw [write_i16_fail_sign b v hneg h0]
    · rw [Buffer.write_i16, if_pos hneg, Buffer.push_neg,
        push_str_ok b [45] (by simp; omega)] at h ⊢
      right
      exact ⟨hneg, write_uint_err_unchanged _ _ h⟩
  · left
    rw [Buffer.write_i16, if_neg hneg] at h ⊢
    exact write_uint_err_unchanged b v.natAbs h

theorem write_i8_err_cases (b : Buffer) (v : Int) (h : (b.write_i8 v).2.isSome) :
    (b.write_i8 v).1 = b ∨ (v < 0 ∧ (b.write_i8 v).1 = b.push_str_unchecked [45]) := by
  by_cases hneg : v < 0
  · by_cases h0 : b.remaining_capacity = 0
    · left
      rw [write_i8_fail_sign b v hneg h0]
    · rw [Buffer.write_i8, if_pos hneg, Buffer.push_neg,
        push_str_ok b [45] (by simp; omega)] at h ⊢
      right
      exact ⟨hneg, write_u8_err_unchanged _ _ h⟩
  · left
    rw [Buffer.write_i8, if_neg hneg] at h ⊢
    exact write_u8_err_unchanged b v.natAbs h

/-! ### Claim theorems -/

/-- C10: the branchless formula `((val + 758) & (val + 412)) >> 8` of
`write_u8` equals 0 on `[0, 9]`, 1 on `[10, 99]` and 2 on `[100, 255]`, so
`formula + 1` is the exact decimal digit count for every `u8` including `0`,
and `write_u8` produces `"0"` for `val = 0` without a literal-`"0"` special
case. -/
theorem claim_C10_u8_ilog10 : ∀ val : Nat, val < 256 →
    (u8_ilog10 val = if val < 10 then 0 else if val < 100 then 1 else 2) ∧
    u8_ilog10 val + 1 = decDigits val ∧
    (((Buffer.create (.arr 1)).write_u8 0).1.as_str = [48] ∧
      ((Buffer.create (.arr 1)).write_u8 0).2 = none) := by
  intro val h
  exact ⟨u8_ilog10_buckets val h, u8_len_eq val h, by decide⟩

/-- Witness for C10 at `val = 123`. -/
theorem claim_C10_witness : u8_ilog10 123 + 1 = decDigits 123 :=
  (claim_C10_u8_ilog10 123 (by norm_num)).2.1

/-- C9: statelessness of every resolved `StdWriter` strategy, and extensional
equality of each strategy's `display` with the corresponding `Buffer` write
method, for every built-in type. -/
theorem claim_C9_dispatch :
    (∀ (t : BuiltinTy) (w w' : StdWriter t), w = w') ∧
    (∀ (w : StdWriter .u8) (v : Nat) (b : Buffer), w.display v b = b.write_u8 v) ∧
    (∀ (w : StdWriter .u16) (v : Nat) (b : Buffer), w.display v b = b.write_u16 v) ∧
    (∀ (w : StdWriter .u32) (v : Nat) (b : Buffer), w.display v b = b.write_u32 v) ∧
    (∀ (w : StdWriter .u64) (v : Nat) (b : Buffer), w.display v b = b.write_u64 v) ∧
    (∀ (w : StdWriter .u128) (v : Nat) (b : Buffer), w.display v b = b.write_u128 v) ∧
    (∀ (w : StdWriter .usize) (v : Nat) (b : Buffer), w.display v b = b.write_usize v) ∧
    (∀ (w : StdWriter .i8) (v : Int) (b : Buffer), w.display v b = b.write_i8 v) ∧
    (∀ (w : StdWriter .i16) (v : Int) (b : Buffer), w.display v b = b.write_i16 v) ∧
    (∀ (w : StdWriter .i32) (v : Int) (b : Buffer), w.display v b = b.write_i32 v) ∧
    (∀ (w : StdWriter .i64) (v : Int) (b : Buffer), w.display v b = b.write_i64 v) ∧
    (∀ (w : StdWriter .i128) (v : Int) (b : Buffer), w.display v b = b.write_i128 v) ∧
    (∀ (w : StdWriter .isize) (v : Int) (b : Buffer), w.display v b = b.write_isize v) ∧
    (∀ (w : StdWriter .ch) (v : Nat) (b : Buffer), w.display v b = b.write_char v) ∧
    (∀ (w : StdWriter .str) (v : List Nat) (b : Buffer), w.display v b = b.push_str v) :=
  by
  refine ⟨fun t w w' => ?_, ?_, ?_, ?_, ?_, ?_, ?_, ?_, ?_, ?_, ?_, ?_, ?_, ?_, ?_⟩
  · cases w
    cases w'
    rfl
  all_goals intro w v b
  all_goals rfl

/-- C6: `append` of any two well-formed buffers concatenates the written
contents, has the Concatenation of the two shapes as storage, has capacity
equal to the sum of the capacities, and never fails (it is a total function
on two borrowed buffers, producing a fresh well-formed buffer). -/
theorem claim_C6_append : ∀ x y : Buffer, x.wf → y.wf →
    (x.append y).as_str = x.as_str ++ y.as_str ∧
    (x.append y).capacity = x.capacity + y.capacity ∧
    (x.append y).shape = ByteShape.concat x.shape y.shape ∧
    (x.append y).wf := by
  intro x y hx hy
  have h := append_spec x y hx hy
  exact ⟨h.1, rfl, rfl, h.2⟩

/-- Witness for C6 on two concrete buffers. -/
theorem claim_C6_witness :
    ((Buffer.create (.arr 2)).append (Buffer.create (.arr 3))).as_str
      = (Buffer.create (.arr 2)).as_str ++ (Buffer.create (.arr 3)).as_str ∧
    ((Buffer.create (.arr 2)).append (Buffer.create (.arr 3))).capacity
      = (Buffer.create (.arr 2)).capacity + (Buffer.create (.arr 3)).capacity := by
  have h := claim_C6_append (Buffer.create (.arr 2)) (Buffer.create (.arr 3))
    ⟨rfl, by decide⟩ ⟨rfl, by decide⟩
  exact ⟨h.1, h.2.1⟩

/-- Counterexample to C2 as stated: `write_i8(-5)` on a buffer with one free
byte returns `BufferWriteFailed` yet leaves the buffer changed — the `'-'`
byte was pushed and `length` grew from 0 to 1 before the magnitude write
failed. -/
theorem claim_C2_counterexample :
    ((Buffer.create (.arr 1)).write_i8 (-5)).2 = some ⟨⟩ ∧
    ((Buffer.create (.arr 1)).write_i8 (-5)).1.len ≠ (Buffer.create (.arr 1)).len := by
  constructor
  · rfl
  · decide

/-- C2 amended: `push_str`, `write_char` and every unsigned writer are atomic
on failure (the buffer is returned unchanged); a signed writer that fails
either leaves the buffer unchanged, or — only when the value is negative and
the sign push succeeded — leaves exactly the single `'-'` byte appended. -/
theorem claim_C2_amended :
    (∀ (b : Buffer) (s : List Nat), (b.push_str s).2.isSome → (b.push_str s).1 = b) ∧
    (∀ (b : Buffer) (c : Nat), (b.write_char c).2.isSome → (b.write_char c).1 = b) ∧
    (∀ (b : Buffer) (v : Nat), (b.write_u8 v).2.isSome → (b.write_u8 v).1 = b) ∧
    (∀ (b : Buffer) (v : Nat), (b.write_u16 v).2.isSome → (b.write_u16 v).1 = b) ∧
    (∀ (b : Buffer) (v : Nat), (b.write_u32 v).2.isSome → (b.write_u32 v).1 = b) ∧
    (∀ (b : Buffer) (v : Nat), (b.write_u64 v).2.isSome → (b.write_u64 v).1 = b) ∧
    (∀ (b : Buffer) (v : Nat), (b.write_u128 v).2.isSome → (b.write_u128 v).1 = b) ∧
    (∀ (b : Buffer) (v : Nat), (b.write_usize v).2.isSome → (b.write_usize v).1 = b) ∧
    (∀ (b : Buffer) (v : Int), (b.write_i8 v).2.isSome →
      (b.write_i8 v).1 = b ∨ (v < 0 ∧ (b.write_i8 v).1 = b.push_str_unchecked [45])) ∧
    (∀ (b : Buffer) (v : Int), (b.write_i16 v).2.isSome →
      (b.write_i16 v).1 = b ∨ (v < 0 ∧ (b.write_i16 v).1 = b.push_str_unchecked [45])) ∧
    (∀ (b : Buffer) (v : Int), (b.write_i32 v).2.isSome →
      (b.write_i32 v).1 = b ∨ (v < 0 ∧ (b.write_i32 v).1 = b.push_str_unchecked [45])) ∧
    (∀ (b : Buffer) (v : Int), (b.write_i64 v).2.isSome →
      (b.write_i64 v).1 = b ∨ (v < 0 ∧ (b.write_i64 v).1 = b.push_str_unchecked [45])) ∧
    (∀ (b : Buffer) (v : Int), (b.write_i128 v).2.isSome →
      (b.write_i128 v).1 = b ∨ (v < 0 ∧ (b.write_i128 v).1 = b.push_str_unchecked [45])) ∧
    (∀ (b : Buffer) (v : Int), (b.write_isize v).2.isSome →
      (b.write_isize v).1 = b ∨ (v < 0 ∧ (b.write_isize v).1 = b.push_str_unchecked [45])) := by
  refine ⟨push_str_err_unchanged, write_char_err_unchanged, write_u8_err_unchanged,
    ?_, ?_, ?_, ?_, ?_, write_i8_err_cases, write_i16_err_cases, ?_, ?_, ?_, ?_⟩
  · exact fun b v h => write_uint_err_unchanged b v h
  · exact fun b v h => write_uint_err_unchanged b v h
  · exact fun b v h => write_uint_err_unchanged b v h
  · exact fun b v h => write_uint_err_unchanged b v h
  · exact fun b v h => write_uint_err_unchanged b v h
  · exact fun b v h => write_i16_err_cases b v h
  · exact fun b v h => write_i16_err_cases b v h
  · exact fun b v h => write_i16_err_cases b v h
  · exact fun b v h => write_i16_err_cases b v h

/-- Witness for amended C2: a failing `push_str` leaves the buffer unchanged. -/
theorem claim_C2_witness :
    ((Buffer.create (.arr 0)).push_str [48]).1 = Buffer.create (.arr 0) :=
  claim_C2_amended.1 (Buffer.create (.arr 0)) [48] (by decide)

/-- Counterexample to C5 as stated: at `value = 42`, `len = 1` the single
written byte is `'2'`, not a 1-character left-padded decimal representation
of `42` (no such representation exists). -/
theorem claim_C5_counterexample :
    ¬ ((write_lt_10000_unchecked [99, 99, 99, 99] 0 42 1).take 1 = padTo 1 42) := by
  have h1 : (write_lt_10000_unchecked [99, 99, 99, 99] 0 42 1).take 1 = [50] := by decide
  have h2 : padTo 1 42 = [52, 50] := by simp [padTo, decChars]
  rw [h1, h2]
  decide

/-- C5 amended: for `value < 10000` and `1 ≤ len ≤ 4`,
`write_lt_10000_unchecked` writes only at offsets `[0, len)` from its
destination (length, the prefix below the destination and the suffix from
`len` on are untouched) despite performing four unconditional writes, and —
provided the digit count of `value` is at most `len` — the `len` bytes
written spell `value` left-padded with `'0'` to exactly `len` digits; when
`len` equals the digit count the result is the unpadded representation with
no leading zero. -/
theorem claim_C5_amended : ∀ (data : List Nat) (off v len : Nat),
    v < 10000 → 1 ≤ len → len ≤ 4 →
    ((write_lt_10000_unchecked data off v len).length = data.length ∧
     (write_lt_10000_unchecked data off v len).take off = data.take off ∧
     (write_lt_10000_unchecked data off v len).drop (off + len) = data.drop (off + len)) ∧
    ((decChars v).length ≤ len → off + len ≤ data.length →
      ((write_lt_10000_unchecked data off v len).drop off).take len = padTo len v ∧
      ((decChars v).length = len →
        padTo len v = decChars v ∧ (v ≠ 0 → (decChars v).head? ≠ some 48))) := by
  intro data off v len hv h1 h4
  obtain ⟨L, hL, hwlt⟩ : ∃ L : List Nat, L.length = len ∧
      write_lt_10000_unchecked data off v len = writeBytes data off L := by
    interval_cases len
    · exact ⟨[chunk3 v], rfl, wlt_one data off v⟩
    · exact ⟨[chunk2 v, chunk3 v], rfl, wlt_two data off v⟩
    · exact ⟨[chunk1 v, chunk2 v, chunk3 v], rfl, wlt_three data off v⟩
    · exact ⟨chunkAt v, rfl, wlt_four data off v 4 (by omega)⟩
  constructor
  · rw [hwlt]
    exact ⟨length_writeBytes L data off,
      take_writeBytes_of_le L data off off (le_refl off),
      drop_writeBytes L data off (off + len) (by omega)⟩
  · intro hd hcap
    have hplen : (padTo len v).length = len := by
      rw [padTo, List.length_append, List.length_replicate]
      omega
    refine ⟨?_, ?_⟩
    · rw [wlt_eq_writeBytes data off v len h1 h4 hd]
      have hw := writeBytes_window (padTo len v) data off (by rw [hplen]; omega)
      rw [hplen] at hw
      exact hw
    · intro he
      refine ⟨padTo_exact len v he, fun h0 => decChars_head_ne_zero v (by omega)⟩

/-- Witness for amended C5 at `data = [99, 99, 99, 99]`, `off = 1`,
`v = 5`, `len = 2`: the byte below the destination is untouched. -/
theorem claim_C5_witness :
    (write_lt_10000_unchecked [99, 99, 99, 99] 1 5 2).take 1 = [99, 99, 99, 99].take 1 :=
  (claim_C5_amended [99, 99, 99, 99] 1 5 2 (by norm_num) (by norm_num) (by norm_num)).1.2.1

/-- C1: every unsigned writer, given remaining capacity at least the decimal
digit count of `v`, returns `Ok` and appends exactly the canonical decimal
ASCII representation of `v` (no leading zeros; exactly `"0"` for `v = 0`),
which re-parses to `v` under a standard decimal parser. `write_usize` is the
64-bit instantiation. -/
theorem claim_C1_unsigned_roundtrip : ∀ (b : Buffer) (v : Nat), b.wf →
    decDigits v ≤ b.remaining_capacity →
    (parseDec (decRep v) = v ∧ (v = 0 → decRep v = [48]) ∧
      (v ≠ 0 → (decRep v).head? ≠ some 48)) ∧
    (v < 2 ^ 8 →
      (b.write_u8 v).2 = none ∧ (b.write_u8 v).1.as_str = b.as_str ++ decRep v) ∧
    (v < 2 ^ 16 →
      (b.write_u16 v).2 = none ∧ (b.write_u16 v).1.as_str = b.as_str ++ decRep v) ∧
    (v < 2 ^ 32 →
      (b.write_u32 v).2 = none ∧ (b.write_u32 v).1.as_str = b.as_str ++ decRep v) ∧
    (v < 2 ^ 64 →
      (b.write_u64 v).2 = none ∧ (b.write_u64 v).1.as_str = b.as_str ++ decRep v) ∧
    (v < 2 ^ 128 →
      (b.write_u128 v).2 = none ∧ (b.write_u128 v).1.as_str = b.as_str ++ decRep v) ∧
    (v < 2 ^ 64 →
      (b.write_usize v).2 = none ∧ (b.write_usize v).1.as_str = b.as_str ++ decRep v) := by
  intro b v hwf hcap
  have hbound : b.len + (decRep v).length ≤ b.capacity := by
    rw [decRep_length]
    exact cap_bound b (decDigits v) hwf hcap
  have hu : (b.write_uint v).2 = none ∧ (b.write_uint v).1.as_str = b.as_str ++ decRep v := by
    rw [write_uint_ok b v hwf hcap]
    exact ⟨rfl, push_str_unchecked_as_str b (decRep v) hwf hbound⟩
  refine ⟨⟨parseDec_decRep v, fun h0 => by rw [decRep, if_pos h0], fun h0 => ?_⟩,
    fun h8 => ?_, fun _ => hu, fun _ => hu, fun _ => hu, fun _ => hu, fun _ => hu⟩
  · rw [decRep, if_neg h0]
    exact decChars_head_ne_zero v (by omega)
  · have h256 : v < 256 := by omega
    rw [write_u8_ok b v h256 hcap]
    exact ⟨rfl, push_str_unchecked_as_str b (decRep v) hwf hbound⟩

/-- Witness for C1 at `v = 7` into a 3-byte buffer. -/
theorem claim_C1_witness :
    ((Buffer.create (.arr 3)).write_u8 7).2 = none ∧ parseDec (decRep 7) = 7 := by
  have hd : decDigits 7 = 1 := by
    rw [decDigits, if_neg (by omega), Nat.log_of_lt (by omega)]
  have h := claim_C1_unsigned_roundtrip (Buffer.create (.arr 3)) 7 ⟨rfl, by decide⟩
    (by rw [hd]; decide)
  exact ⟨(h.2.1 (by norm_num)).1, h.1.1⟩

/-- C3: every signed writer, given capacity for the sign and magnitude,
returns `Ok` and appends a `'-'` exactly when `v < 0` followed by the decimal
magnitude computed via the non-overflowing unsigned absolute value (which
fits the unsigned width even at the minimum representable value), the whole
re-parsing to `v`; and for a negative value with no remaining capacity the
sign push itself fails and short-circuits, leaving the buffer unchanged. -/
theorem claim_C3_signed_roundtrip : ∀ (b : Buffer) (v : Int), b.wf →
    (parseSignedDec (negRep v) = v ∧ ((negRep v).head? = some 45 ↔ v < 0) ∧
      (-(2 ^ 7) ≤ v → v < 2 ^ 7 → v.natAbs ≤ 2 ^ 7) ∧
      (-(2 ^ 15) ≤ v → v < 2 ^ 15 → v.natAbs ≤ 2 ^ 15) ∧
      (-(2 ^ 31) ≤ v → v < 2 ^ 31 → v.natAbs ≤ 2 ^ 31) ∧
      (-(2 ^ 63) ≤ v → v < 2 ^ 63 → v.natAbs ≤ 2 ^ 63) ∧
      (-(2 ^ 127) ≤ v → v < 2 ^ 127 → v.natAbs ≤ 2 ^ 127)) ∧
    ((negRep v).length ≤ b.remaining_capacity →
      (-(2 ^ 7) ≤ v → v < 2 ^ 7 →
        (b.write_i8 v).2 = none ∧ (b.write_i8 v).1.as_str = b.as_str ++ negRep v) ∧
      (-(2 ^ 15) ≤ v → v < 2 ^ 15 →
        (b.write_i16 v).2 = none ∧ (b.write_i16 v).1.as_str = b.as_str ++ negRep v) ∧
      (-(2 ^ 31) ≤ v → v < 2 ^ 31 →
        (b.write_i32 v).2 = none ∧ (b.write_i32 v).1.as_str = b.as_str ++ negRep v) ∧
      (-(2 ^ 63) ≤ v → v < 2 ^ 63 →
        (b.write_i64 v).2 = none ∧ (b.write_i64 v).1.as_str = b.as_str ++ negRep v) ∧
      (-(2 ^ 127) ≤ v → v < 2 ^ 127 →
        (b.write_i128 v).2 = none ∧ (b.write_i128 v).1.as_str = b.as_str ++ negRep v) ∧
      (-(2 ^ 63) ≤ v → v < 2 ^ 63 →
        (b.write_isize v).2 = none ∧ (b.write_isize v).1.as_str = b.as_str ++ negRep v)) ∧
    (v < 0 → b.remaining_capacity = 0 →
      b.write_i8 v = (b, some ⟨⟩) ∧ b.write_i16 v = (b, some ⟨⟩) ∧
      b.write_i32 v = (b, some ⟨⟩) ∧ b.write_i64 v = (b, some ⟨⟩) ∧
      b.write_i128 v = (b, some ⟨⟩) ∧ b.write_isize v = (b, some ⟨⟩)) := by
  intro b v hwf
  refine ⟨⟨parseSignedDec_negRep v, negRep_head_iff v,
      fun h h' => by omega, fun h h' => by omega, fun h h' => by omega,
      fun h h' => by omega, fun h h' => by omega⟩, fun hcap => ?_, fun hneg h0 => ?_⟩
  · have hbound : b.len + (negRep v).length ≤ b.capacity := cap_bound b _ hwf hcap
    have hi : (b.write_i16 v).2 = none ∧ (b.write_i16 v).1.as_str = b.as_str ++ negRep v := by
      rw [write_i16_ok b v hwf hcap]
      exact ⟨rfl, push_str_unchecked_as_str b (negRep v) hwf hbound⟩
    refine ⟨fun hlo hhi => ?_, fun _ _ => hi, fun _ _ => hi, fun _ _ => hi,
      fun _ _ => hi, fun _ _ => hi⟩
    have habs : v.natAbs < 256 := by omega
    rw [write_i8_ok b v hwf habs hcap]
    exact ⟨rfl, push_str_unchecked_as_str b (negRep v) hwf hbound⟩
  · have h8 := write_i8_fail_sign b v hneg h0
    have h16 := write_i16_fail_sign b v hneg h0
    exact ⟨h8, h16, h16, h16, h16, h16⟩

/-- Witness for C3 at `v = -12` into a 4-byte buffer and a negative value
against a full buffer. -/
theorem claim_C3_witness :
    ((Buffer.create (.arr 4)).write_i8 (-12)).2 = none ∧
    (Buffer.create (.arr 0)).write_i16 (-3) = (Buffer.create (.arr 0), some ⟨⟩) := by
  have hl : Nat.log 10 12 = 1 :=
    Nat.log_eq_of_pow_le_of_lt_pow (by norm_num) (by norm_num)
  have hd : decDigits 12 = 2 := by
    rw [decDigits, if_neg (by omega), hl]
  have hlen : (negRep (-12)).length = 3 := by
    rw [negRep_length_neg (-12) (by norm_num), show Int.natAbs (-12) = 12 from rfl, hd]
  have h1 := claim_C3_signed_roundtrip (Buffer.create (.arr 4)) (-12) ⟨rfl, by decide⟩
  have h2 := claim_C3_signed_roundtrip (Buffer.create (.arr 0)) (-3) ⟨rfl, by decide⟩
  exact ⟨((h1.2.1 (by rw [hlen]; decide)).1 (by norm_num) (by norm_num)).1,
    (h2.2.2 (by norm_num) (by decide)).2.1⟩

/-- C4: an unsigned write raises `BufferWriteFailed` iff the digit count of
`v` exceeds the remaining capacity; a write whose digit count equals the
remaining capacity succeeds and fills the buffer exactly; a failing write
leaves the buffer (and in particular `len`) unchanged. -/
theorem claim_C4_capacity_boundary : ∀ (b : Buffer) (v : Nat), b.wf →
    (v < 2 ^ 8 →
      ((b.write_u8 v).2.isSome ↔ b.remaining_capacity < decDigits v) ∧
      (decDigits v = b.remaining_capacity →
        (b.write_u8 v).2 = none ∧ (b.write_u8 v).1.remaining_capacity = 0) ∧
      (b.remaining_capacity < decDigits v →
        (b.write_u8 v).1 = b ∧ (b.write_u8 v).1.len = b.len)) ∧
    (((b.write_u16 v).2.isSome ↔ b.remaining_capacity < decDigits v) ∧
      (decDigits v = b.remaining_capacity →
        (b.write_u16 v).2 = none ∧ (b.write_u16 v).1.remaining_capacity = 0) ∧
      (b.remaining_capacity < decDigits v →
        (b.write_u16 v).1 = b ∧ (b.write_u16 v).1.len = b.len)) ∧
    (((b.write_u32 v).2.isSome ↔ b.remaining_capacity < decDigits v) ∧
      (decDigits v = b.remaining_capacity →
        (b.write_u32 v).2 = none ∧ (b.write_u32 v).1.remaining_capacity = 0) ∧
      (b.remaining_capacity < decDigits v →
        (b.write_u32 v).1 = b ∧ (b.write_u32 v).1.len = b.len)) ∧
    (((b.write_u64 v).2.isSome ↔ b.remaining_capacity < decDigits v) ∧
      (decDigits v = b.remaining_capacity →
        (b.write_u64 v).2 = none ∧ (b.write_u64 v).1.remaining_capacity = 0) ∧
      (b.remaining_capacity < decDigits v →
        (b.write_u64 v).1 = b ∧ (b.write_u64 v).1.len = b.len)) ∧
    (((b.write_u128 v).2.isSome ↔ b.remaining_capacity < decDigits v) ∧
      (decDigits v = b.remaining_capacity →
        (b.write_u128 v).2 = none ∧ (b.write_u128 v).1.remaining_capacity = 0) ∧
      (b.remaining_capacity < decDigits v →
        (b.write_u128 v).1 = b ∧ (b.write_u128 v).1.len = b.len)) ∧
    (((b.write_usize v).2.isSome ↔ b.remaining_capacity < decDigits v) ∧
      (decDigits v = b.remaining_capacity →
        (b.write_usize v).2 = none ∧ (b.write_usize v).1.remaining_capacity = 0) ∧
      (b.remaining_capacity < decDigits v →
        (b.write_usize v).1 = b ∧ (b.write_usize v).1.len = b.len)) := by
  intro b v hwf
  obtain ⟨hdl, hlc⟩ := hwf
  have hrc : b.remaining_capacity = b.capacity - b.len := rfl
  have huint : ((b.write_uint v).2.isSome ↔ b.remaining_capacity < decDigits v) ∧
      (decDigits v = b.remaining_capacity →
        (b.write_uint v).2 = none ∧ (b.write_uint v).1.remaining_capacity = 0) ∧
      (b.remaining_capacity < decDigits v →
        (b.write_uint v).1 = b ∧ (b.write_uint v).1.len = b.len) := by
    refine ⟨⟨fun h => ?_, fun h => ?_⟩, fun h => ?_, fun h => ?_⟩
    · by_contra hc
      rw [write_uint_ok b v ⟨hdl, hlc⟩ (by omega)] at h
      simp at h
    · rw [write_uint_fail b v h]
      rfl
    · rw [write_uint_ok b v ⟨hdl, hlc⟩ (by omega)]
      refine ⟨rfl, ?_⟩
      show (b.push_str_unchecked (decRep v)).remaining_capacity = 0
      rw [remaining_push_str_unchecked, decRep_length]
      omega
    · rw [write_uint_fail b v h]
      exact ⟨rfl, rfl⟩
  have hu8 : v < 256 →
      ((b.write_u8 v).2.isSome ↔ b.remaining_capacity < decDigits v) ∧
      (decDigits v = b.remaining_capacity →
        (b.write_u8 v).2 = none ∧ (b.write_u8 v).1.remaining_capacity = 0) ∧
      (b.remaining_capacity < decDigits v →
        (b.write_u8 v).1 = b ∧ (b.write_u8 v).1.len = b.len) := by
    intro hv
    refine ⟨⟨fun h => ?_, fun h => ?_⟩, fun h => ?_, fun h => ?_⟩
    · by_contra hc
      rw [write_u8_ok b v hv (by omega)] at h
      simp at h
    · rw [write_u8_fail b v hv h]
      rfl
    · rw [write_u8_ok b v hv (by omega)]
      refine ⟨rfl, ?_⟩
      show (b.push_str_unchecked (decRep v)).remaining_capacity = 0
      rw [remaining_push_str_unchecked, decRep_length]
      omega
    · rw [write_u8_fail b v hv h]
      exact ⟨rfl, rfl⟩
  exact ⟨fun hv => hu8 (by omega), huint, huint, huint, huint, huint⟩

/-- Witness for C4: writing a 1-digit value into 1 free byte fills the
buffer exactly. -/
theorem claim_C4_witness :
    ((Buffer.create (.arr 1)).write_u16 7).2 = none ∧
    ((Buffer.create (.arr 1)).write_u16 7).1.remaining_capacity = 0 := by
  have hd : decDigits 7 = 1 := by
    rw [decDigits, if_neg (by omega), Nat.log_of_lt (by omega)]
  exact (claim_C4_capacity_boundary (Buffer.create (.arr 1)) 7
    ⟨rfl, by decide⟩).2.1.2.1 (by rw [hd]; rfl)

/-- C8: every successful integer write grows `len` by exactly the decimal
digit count of `|v|`, plus one for the sign when `v < 0`. -/
theorem claim_C8_exact_length : ∀ b : Buffer, b.wf →
    (∀ v : Nat, v < 2 ^ 8 → (b.write_u8 v).2 = none →
      (b.write_u8 v).1.len = b.len + decDigits v) ∧
    (∀ v : Nat, (b.write_u16 v).2 = none → (b.write_u16 v).1.len = b.len + decDigits v) ∧
    (∀ v : Nat, (b.write_u32 v).2 = none → (b.write_u32 v).1.len = b.len + decDigits v) ∧
    (∀ v : Nat, (b.write_u64 v).2 = none → (b.write_u64 v).1.len = b.len + decDigits v) ∧
    (∀ v : Nat, (b.write_u128 v).2 = none → (b.write_u128 v).1.len = b.len + decDigits v) ∧
    (∀ v : Nat, (b.write_usize v).2 = none → (b.write_usize v).1.len = b.len + decDigits v) ∧
    (∀ v : Int, v.natAbs < 2 ^ 8 → (b.write_i8 v).2 = none →
      (b.write_i8 v).1.len = b.len + decDigits v.natAbs + (if v < 0 then 1 else 0)) ∧
    (∀ v : Int, (b.write_i16 v).2 = none →
      (b.write_i16 v).1.len = b.len + decDigits v.natAbs + (if v < 0 then 1 else 0)) ∧
    (∀ v : Int, (b.write_i32 v).2 = none →
      (b.write_i32 v).1.len = b.len + decDigits v.natAbs + (if v < 0 then 1 else 0)) ∧
    (∀ v : Int, (b.write_i64 v).2 = none →
      (b.write_i64 v).1.len = b.len + decDigits v.natAbs + (if v < 0 then 1 else 0)) ∧
    (∀ v : Int, (b.write_i128 v).2 = none →
      (b.write_i128 v).1.len = b.len + decDigits v.natAbs + (if v < 0 then 1 else 0)) ∧
    (∀ v : Int, (b.write_isize v).2 = none →
      (b.write_isize v).1.len = b.len + decDigits v.natAbs + (if v < 0 then 1 else 0)) := by
  intro b hwf
  have huint : ∀ v : Nat, (b.write_uint v).2 = none →
      (b.write_uint v).1.len = b.len + decDigits v := by
    intro v h
    by_cases hc : b.remaining_capacity < decDigits v
    · rw [write_uint_fail b v hc] at h
      simp at h
    · rw [write_uint_ok b v hwf (by omega)]
      show b.len + (decRep v).length = b.len + decDigits v
      rw [decRep_length]
  have hu8 : ∀ v : Nat, v < 256 → (b.write_u8 v).2 = none →
      (b.write_u8 v).1.len = b.len + decDigits v := by
    intro v hv h
    by_cases hc : b.remaining_capacity < decDigits v
    · rw [write_u8_fail b v hv hc] at h
      simp at h
    · rw [write_u8_ok b v hv (by omega)]
      show b.len + (decRep v).length = b.len + decDigits v
      rw [decRep_length]
  have hi16 : ∀ v : Int, (b.write_i16 v).2 = none →
      (b.write_i16 v).1.len = b.len + decDigits v.natAbs + (if v < 0 then 1 else 0) := by
    intro v h
    by_cases hc : (negRep v).length ≤ b.remaining_capacity
    · rw [write_i16_ok b v hwf hc]
      show b.len + (negRep v).length = _
      by_cases hneg : v < 0
      · rw [negRep_length_neg v hneg, if_pos hneg]
        omega
      · rw [negRep_length_nonneg v hneg, if_neg hneg]
        omega
    · push_neg at hc
      by_cases hneg : v < 0
      · by_cases h0 : b.remaining_capacity = 0
        · rw [write_i16_fail_sign b v hneg h0] at h
          simp at h
        · rw [write_i16_fail_mag b v hneg (by omega) hc] at h
          simp at h
      · rw [write_i16_fail_nonneg b v hneg hc] at h
        simp at h
  have hi8 : ∀ v : Int, v.natAbs < 256 → (b.write_i8 v).2 = none →
      (b.write_i8 v).1.len = b.len + decDigits v.natAbs + (if v < 0 then 1 else 0) := by
    intro v hv h
    by_cases hc : (negRep v).length ≤ b.remaining_capacity
    · rw [write_i8_ok b v hwf hv hc]
      show b.len + (negRep v).length = _
      by_cases hneg : v < 0
      · rw [negRep_length_neg v hneg, if_pos hneg]
        omega
      · rw [negRep_length_nonneg v hneg, if_neg hneg]
        omega
    · push_neg at hc
      by_cases hneg : v < 0
      · by_cases h0 : b.remaining_capacity = 0
        · rw [write_i8_fail_sign b v hneg h0] at h
          simp at h
        · rw [write_i8_fail_mag b v hneg hv (by omega) hc] at h
          simp at h
      · rw [write_i8_fail_nonneg b v hneg hv hc] at h
        simp at h
  exact ⟨fun v hv => hu8 v (by omega), huint, huint, huint, huint, huint,
    fun v hv => hi8 v (by omega), hi16, hi16, hi16, hi16, hi16⟩

/-- Witness for C8: a successful `write_i16 (-12)` grows `len` by 3. -/
theorem claim_C8_witness :
    (((Buffer.create (.arr 4)).write_i16 (-12)).1.len : Nat)
      = 0 + decDigits (Int.natAbs (-12)) + 1 := by
  have hl : Nat.log 10 12 = 1 := Nat.log_eq_of_pow_le_of_lt_pow (by norm_num) (by norm_num)
  have hd : decDigits 12 = 2 := by rw [decDigits, if_neg (by omega), hl]
  have hlen : (negRep (-12)).length = 3 := by
    rw [negRep_length_neg (-12) (by norm_num), show Int.natAbs (-12) = 12 from rfl, hd]
  have hok := write_i16_ok (Buffer.create (.arr 4)) (-12) ⟨rfl, by decide⟩
    (by rw [hlen]; decide)
  have h := (claim_C8_exact_length (Buffer.create (.arr 4)) ⟨rfl, by decide⟩).2.2.2.2.2.2.2.1
    (-12) (by rw [hok])
  rw [h]
  norm_num
  rfl

/-- C7: every public operation preserves the invariant that `len` is at most
the capacity, the storage has exactly `capacity` bytes, and the written
prefix `[0, len)` is valid UTF-8 (ASCII for all integer-writer output); a
fresh buffer satisfies it, so `as_str` is always a valid text view. -/
theorem claim_C7_invariant :
    (∀ sh : ByteShape, (Buffer.create sh).Inv) ∧
    (∀ b : Buffer, b.Inv → b.clear.Inv) ∧
    (∀ (b : Buffer) (s : List Nat), b.Inv → IsUtf8 s → (b.push_str s).1.Inv) ∧
    (∀ (b : Buffer) (c : Nat), b.Inv → IsScalar c → (b.write_char c).1.Inv) ∧
    (∀ (b : Buffer) (v : Nat), v < 2 ^ 8 → b.Inv → (b.write_u8 v).1.Inv) ∧
    (∀ (b : Buffer) (v : Nat), b.Inv → (b.write_u16 v).1.Inv) ∧
    (∀ (b : Buffer) (v : Nat), b.Inv → (b.write_u32 v).1.Inv) ∧
    (∀ (b : Buffer) (v : Nat), b.Inv → (b.write_u64 v).1.Inv) ∧
    (∀ (b : Buffer) (v : Nat), b.Inv → (b.write_u128 v).1.Inv) ∧
    (∀ (b : Buffer) (v : Nat), b.Inv → (b.write_usize v).1.Inv) ∧
    (∀ (b : Buffer) (v : Int), v.natAbs < 2 ^ 8 → b.Inv → (b.write_i8 v).1.Inv) ∧
    (∀ (b : Buffer) (v : Int), b.Inv → (b.write_i16 v).1.Inv) ∧
    (∀ (b : Buffer) (v : Int), b.Inv → (b.write_i32 v).1.Inv) ∧
    (∀ (b : Buffer) (v : Int), b.Inv → (b.write_i64 v).1.Inv) ∧
    (∀ (b : Buffer) (v : Int), b.Inv → (b.write_i128 v).1.Inv) ∧
    (∀ (b : Buffer) (v : Int), b.Inv → (b.write_isize v).1.Inv) ∧
    (∀ x y : Buffer, x.Inv → y.Inv → (x.append y).Inv) := by
  have hcreate : ∀ sh : ByteShape, (Buffer.create sh).Inv := by
    intro sh
    refine ⟨⟨?_, Nat.zero_le _⟩, isUtf8_nil⟩
    simp [Buffer.create, Buffer.capacity]
  have hclear : ∀ b : Buffer, b.Inv → b.clear.Inv := by
    intro b hinv
    exact ⟨⟨hinv.1.1, Nat.zero_le _⟩, isUtf8_nil⟩
  have hpush : ∀ (b : Buffer) (s : List Nat), b.Inv → IsUtf8 s → (b.push_str s).1.Inv := by
    intro b s hinv hs
    by_cases hc : b.remaining_capacity < s.length
    · rw [push_str_fail b s hc]
      exact hinv
    · rw [push_str_ok b s (by omega)]
      exact inv_push_str_unchecked_utf8 b s hinv (cap_bound b _ hinv.1 (by omega)) hs
  have hchar : ∀ (b : Buffer) (c : Nat), b.Inv → IsScalar c → (b.write_char c).1.Inv := by
    intro b c hinv hsc
    by_cases hc : b.remaining_capacity < (utf8EncodeChar c).length
    · rw [write_char_fail b c hc]
      exact hinv
    · rw [write_char_ok b c (by omega)]
      have hb := cap_bound b (utf8EncodeChar c).length hinv.1 (by omega)
      exact ⟨push_str_unchecked_wf b _ hinv.1 hb,
        by rw [push_str_unchecked_as_str b _ hinv.1 hb]
           exact isUtf8_append_encode _ c hinv.2 hsc⟩
  have huint : ∀ (b : Buffer) (v : Nat), b.Inv → (b.write_uint v).1.Inv := by
    intro b v hinv
    by_cases hc : b.remaining_capacity < decDigits v
    · rw [write_uint_fail b v hc]
      exact hinv
    · rw [write_uint_ok b v hinv.1 (by omega)]
      exact inv_push_str_unchecked_ascii b (decRep v) hinv
        (cap_bound b _ hinv.1 (by rw [decRep_length]; omega)) (decRep_ascii v)
  have hu8 : ∀ (b : Buffer) (v : Nat), v < 256 → b.Inv → (b.write_u8 v).1.Inv := by
    intro b v hv hinv
    by_cases hc : b.remaining_capacity < decDigits v
    · rw [write_u8_fail b v hv hc]
      exact hinv
    · rw [write_u8_ok b v hv (by omega)]
      exact inv_push_str_unchecked_ascii b (decRep v) hinv
        (cap_bound b _ hinv.1 (by rw [decRep_length]; omega)) (decRep_ascii v)
  have hneg45 : ∀ b : Buffer, b.Inv → 1 ≤ b.remaining_capacity →
      (b.push_str_unchecked [45]).Inv := by
    intro b hinv h1
    exact inv_push_str_unchecked_ascii b [45] hinv (cap_bound b _ hinv.1 (by simpa using h1))
      (by decide)
  have hi16 : ∀ (b : Buffer) (v : Int), b.Inv → (b.write_i16 v).1.Inv := by
    intro b v hinv
    by_cases hc : (negRep v).length ≤ b.remaining_capacity
    · rw [write_i16_ok b v hinv.1 hc]
      exact inv_push_str_unchecked_ascii b (negRep v) hinv (cap_bound b _ hinv.1 hc)
        (negRep_ascii v)
    · push_neg at hc
      by_cases hneg : v < 0
      · by_cases h0 : b.remaining_capacity = 0
        · rw [write_i16_fail_sign b v hneg h0]
          exact hinv
        · rw [write_i16_fail_mag b v hneg (by omega) hc]
          exact hneg45 b hinv (by omega)
      · rw [write_i16_fail_nonneg b v hneg hc]
        exact hinv
  have hi8 : ∀ (b : Buffer) (v : Int), v.natAbs < 256 → b.Inv → (b.write_i8 v).1.Inv := by
    intro b v hv hinv
    by_cases hc : (negRep v).length ≤ b.remaining_capacity
    · rw [write_i8_ok b v hinv.1 hv hc]
      exact inv_push_str_unchecked_ascii b (negRep v) hinv (cap_bound b _ hinv.1 hc)
        (negRep_ascii v)
    · push_neg at hc
      by_cases hneg : v < 0
      · by_cases h0 : b.remaining_capacity = 0
        · rw [write_i8_fail_sign b v hneg h0]
          exact hinv
        · rw [write_i8_fail_mag b v hneg hv (by omega) hc]
          exact hneg45 b hinv (by omega)
      · rw [write_i8_fail_nonneg b v hneg hv hc]
        exact hinv
  have happ : ∀ x y : Buffer, x.Inv → y.Inv → (x.append y).Inv := by
    intro x y hx hy
    obtain ⟨has, hwf⟩ := append_spec x y hx.1 hy.1
    exact ⟨hwf, by rw [has]; exact isUtf8_append _ _ hx.2 hy.2⟩
  exact ⟨hcreate, hclear, hpush, hchar, fun b v hv => hu8 b v (by omega),
    huint, huint, huint, huint, huint, fun b v hv => hi8 b v (by omega),
    hi16, hi16, hi16, hi16, hi16, happ⟩

/-- Witness for C7: pushing `"0"` into a fresh 2-byte buffer preserves the
invariant. -/
theorem claim_C7_witness : ((Buffer.create (.arr 2)).push_str [48]).1.Inv := by
  have h := claim_C7_invariant
  exact h.2.2.1 (Buffer.create (.arr 2)) [48] (h.1 (.arr 2))
    (isUtf8_ascii [48] (by decide))

end ConstFmt
